import Mathlib

/-!
Verification of the BlockScope sliding-window rate limiter
(`backend/app/core/rate_limit.py`).

The embedding models the Redis sorted-set store explicitly.  Timestamps are
rationals (Python floats are modelled as exact rationals); Python `int(...)`
truncation toward zero is `pyInt`.  A request marker member is the pair
`(current_time, id(identifier))` standing for the string
`f"{current_time}:{id(identifier)}"`, which is injective in the pair.
-/

namespace BlockScope

/-- Python `int(q)` truncation toward zero on a rational. -/
def pyInt (q : ℚ) : ℤ := if 0 ≤ q then ⌊q⌋ else ⌈q⌉

/-- A request marker member: the code builds `f"{current_time}:{id(identifier)}"`;
we keep the pair (timestamp, object id), which the string encodes injectively. -/
abbrev Member := ℚ × ℕ

/-- One Redis sorted set: a list of (member, score) pairs, members distinct. -/
abbrev ZSet := List (Member × ℚ)

/-- Redis ZADD key {member: score}: update the score if the member exists,
otherwise insert the member. -/
def zadd (z : ZSet) (m : Member) (s : ℚ) : ZSet :=
  if z.any (fun e => e.1 = m) then z.map (fun e => if e.1 = m then (m, s) else e)
  else z ++ [(m, s)]

/-- Redis ZREMRANGEBYSCORE key -inf cutoff: removes every member whose score
lies in [-inf, cutoff], i.e. score ≤ cutoff (both bounds inclusive in Redis). -/
def zremrangebyscore (z : ZSet) (cutoff : ℚ) : ZSet :=
  z.filter (fun e => decide (cutoff < e.2))

/-- Redis ZCARD key: cardinality of the sorted set. -/
def zcard (z : ZSet) : ℕ := z.length

/-- Score returned by ZRANGE key 0 0 WITHSCORES: the minimal score in the set
(Redis returns elements in score order). -/
def minScore : ZSet → Option ℚ
  | [] => none
  | e :: rest =>
    match minScore rest with
    | none => some e.2
    | some m => some (min e.2 m)

/-- The Redis database as seen by the rate limiter: for every key a sorted set
(empty list when the key is absent) and an optional expiry. -/
structure Store where
  sets : String → ZSet
  ttl : String → Option ℚ

/-- An empty Redis database. -/
def Store.empty : Store := ⟨fun _ => [], fun _ => none⟩

/-- Replace the sorted set stored at `key`. -/
def Store.setZ (st : Store) (key : String) (z : ZSet) : Store :=
  { st with sets := fun k => if k = key then z else st.sets k }

/-- Redis EXPIRE key seconds. -/
def Store.setTtl (st : Store) (key : String) (t : ℚ) : Store :=
  { st with ttl := fun k => if k = key then some t else st.ttl k }

/-- `RateLimiter._get_key`: `f"{self.prefix}:{identifier}:{window}"` with the
default prefix `"ratelimit"`. -/
def getKey (identifier window : String) : String :=
  "ratelimit:" ++ identifier ++ ":" ++ window

/-- The limits dict `{per_minute, per_hour, per_day}` passed to
`is_rate_limited` (a missing key is read as 0 via `limits.get(_, 0)`). -/
structure Limits where
  per_minute : ℤ
  per_hour : ℤ
  per_day : ℤ
deriving DecidableEq, Repr

/-- The `limit_info` dict built by `RateLimiter.is_rate_limited`. -/
structure LimitInfo where
  limited : Bool
  retry_after : ℤ
  limit : ℤ
  remaining : ℤ
  reset : ℤ
  window : String
deriving DecidableEq, Repr

/-- Initial value of `limit_info` in `is_rate_limited`. -/
def initInfo : LimitInfo :=
  { limited := false, retry_after := 0, limit := 0, remaining := 0, reset := 0, window := "" }

/-- The `windows` dict of `is_rate_limited`, in its (insertion-ordered)
iteration order: minute, hour, day. -/
def windowsOf (limits : Limits) : List (String × ℚ × ℤ) :=
  [("minute", 60, limits.per_minute), ("hour", 3600, limits.per_hour),
   ("day", 86400, limits.per_day)]

/-- The `if window_name == "minute"` header update inside the check loop:
remaining/limit/reset are refreshed from the minute window only. -/
def updateHeader (wname : String) (ws : ℚ) (lim : ℤ) (count : ℕ) (now : ℚ)
    (info : LimitInfo) : LimitInfo :=
  if wname = "minute" then
    { info with limit := lim, remaining := max 0 (lim - count), reset := pyInt (now + ws) }
  else info

/-- The `limit_info.update` performed on a violated window (the deny return). -/
def denyInfo (wname : String) (ws : ℚ) (lim : ℤ) (oldest : ℚ) (now : ℚ) : LimitInfo :=
  { limited := true, retry_after := max 1 (pyInt (oldest + ws - now)),
    limit := lim, remaining := 0, reset := pyInt (oldest + ws), window := wname }

/-- The `for window_name, (window_seconds, limit) in windows.items()` loop of
`is_rate_limited`: skip zero limits; trim expired markers; count; deny and
return on the first violated window (when the trimmed set is non-empty);
otherwise update the minute header info and continue. -/
def checkLoop (identifier : String) (now : ℚ) (burst : ℤ) :
    List (String × ℚ × ℤ) → Store → LimitInfo → Bool × LimitInfo × Store
  | [], st, info => (false, info, st)
  | (wname, ws, lim) :: rest, st, info =>
    if lim = 0 then checkLoop identifier now burst rest st info
    else
      let key := getKey identifier wname
      let z := zremrangebyscore (st.sets key) (now - ws)
      let st1 := st.setZ key z
      let count := zcard z
      if (count : ℤ) ≥ lim + burst then
        match minScore z with
        | some oldest => (true, denyInfo wname ws lim oldest now, st1)
        | none => checkLoop identifier now burst rest st1 (updateHeader wname ws lim count now info)
      else checkLoop identifier now burst rest st1 (updateHeader wname ws lim count now info)

/-- The recording loop run after admission: for every window with a positive
limit, `zadd` the request marker and refresh the key expiry to
`window_seconds + 60`. -/
def recordLoop (identifier : String) (reqId : Member) (now : ℚ) :
    List (String × ℚ × ℤ) → Store → Store
  | [], st => st
  | (wname, ws, lim) :: rest, st =>
    if lim > 0 then
      let key := getKey identifier wname
      recordLoop identifier reqId now rest
        ((st.setZ key (zadd (st.sets key) reqId now)).setTtl key (ws + 60))
    else recordLoop identifier reqId now rest st

/-- `RateLimiter.is_rate_limited(identifier, limits, burst_allowance)` at
`current_time = now`, with `objId` standing for `id(identifier)`.  Returns the
`(is_limited, limit_info)` pair together with the resulting store state. -/
def is_rate_limited (st : Store) (identifier : String) (objId : ℕ) (limits : Limits)
    (burst : ℤ) (now : ℚ) : Bool × LimitInfo × Store :=
  match checkLoop identifier now burst (windowsOf limits) st initInfo with
  | (true, info, st1) => (true, info, st1)
  | (false, info, st1) =>
      (false, info, recordLoop identifier (now, objId) now (windowsOf limits) st1)

/-- A sequence of sequential `is_rate_limited` evaluations: each call is a
(time, object id) pair; the store is threaded through; the decision and
`limit_info` of every call are collected in order. -/
def runCalls (identifier : String) (limits : Limits) (burst : ℤ) :
    List (ℚ × ℕ) → Store → Store × List (Bool × LimitInfo)
  | [], st => (st, [])
  | (t, o) :: rest, st =>
    match is_rate_limited st identifier o limits burst t with
    | (limited, info, st') =>
      match runCalls identifier limits burst rest st' with
      | (stFinal, results) => (stFinal, (limited, info) :: results)

/-! ### Single-configured-window configurations

`singleLimits i L` is the limit profile whose only non-zero window is the
`i`-th one (0 = minute, 1 = hour, anything else = day). -/

def winName : ℕ → String
  | 0 => "minute"
  | 1 => "hour"
  | _ => "day"

def winDur : ℕ → ℚ
  | 0 => 60
  | 1 => 3600
  | _ => 86400

def singleLimits : ℕ → ℤ → Limits
  | 0, L => ⟨L, 0, 0⟩
  | 1, L => ⟨0, L, 0⟩
  | _, L => ⟨0, 0, L⟩

/-- The trimmed sorted set of the unique active window of `singleLimits i _`. -/
def singleZ (st : Store) (identifier : String) (i : ℕ) (now : ℚ) : ZSet :=
  zremrangebyscore (st.sets (getKey identifier (winName i))) (now - winDur i)

/-- The sorted-set contents produced by recording the given (time, object id)
calls in order: member `(t, o)` with score `t` for every call. -/
def entriesOf (calls : List (ℚ × ℕ)) : ZSet := calls.map (fun c => ((c.1, c.2), c.1))

/-! ### The store with possible failures, and the middleware

The Python limiter performs network calls to Redis that can raise
(connection errors, timeouts).  `RStore` models the connection: when
`ok = false` every store operation raises (returns `Except.error`);
`is_rate_limited` has no try/except, so in the embedding every store
call is sequenced with `do`-bind and the first failure propagates. -/

structure RStore where
  ok : Bool
  db : Store

/-- The error raised by any operation on an unreachable store. -/
def storeFailure : String := "redis_connection_error"

def rZremrangebyscore (rs : RStore) (key : String) (cutoff : ℚ) : Except String RStore :=
  if rs.ok then
    .ok { rs with db := rs.db.setZ key (zremrangebyscore (rs.db.sets key) cutoff) }
  else .error storeFailure

def rZcard (rs : RStore) (key : String) : Except String ℕ :=
  if rs.ok then .ok (zcard (rs.db.sets key)) else .error storeFailure

/-- `zrange(key, 0, 0, withscores=True)`: the score of the oldest marker. -/
def rOldest (rs : RStore) (key : String) : Except String (Option ℚ) :=
  if rs.ok then .ok (minScore (rs.db.sets key)) else .error storeFailure

def rZadd (rs : RStore) (key : String) (m : Member) (s : ℚ) : Except String RStore :=
  if rs.ok then .ok { rs with db := rs.db.setZ key (zadd (rs.db.sets key) m s) }
  else .error storeFailure

def rExpire (rs : RStore) (key : String) (t : ℚ) : Except String RStore :=
  if rs.ok then .ok { rs with db := rs.db.setTtl key t } else .error storeFailure

/-- The check loop of `is_rate_limited` with fallible store operations. -/
def checkLoopE (identifier : String) (now : ℚ) (burst : ℤ) :
    List (String × ℚ × ℤ) → RStore → LimitInfo → Except String (Bool × LimitInfo × RStore)
  | [], rs, info => .ok (false, info, rs)
  | (wname, ws, lim) :: rest, rs, info =>
    if lim = 0 then checkLoopE identifier now burst rest rs info
    else do
      let key := getKey identifier wname
      let rs1 ← rZremrangebyscore rs key (now - ws)
      let count ← rZcard rs1 key
      if (count : ℤ) ≥ lim + burst then do
        let oldest ← rOldest rs1 key
        match oldest with
        | some m => pure (true, denyInfo wname ws lim m now, rs1)
        | none => checkLoopE identifier now burst rest rs1 (updateHeader wname ws lim count now info)
      else checkLoopE identifier now burst rest rs1 (updateHeader wname ws lim count now info)

/-- The record loop of `is_rate_limited` with fallible store operations. -/
def recordLoopE (identifier : String) (reqId : Member) (now : ℚ) :
    List (String × ℚ × ℤ) → RStore → Except String RStore
  | [], rs => .ok rs
  | (wname, ws, lim) :: rest, rs =>
    if lim > 0 then do
      let key := getKey identifier wname
      let rs1 ← rZadd rs key reqId now
      let rs2 ← rExpire rs1 key (ws + 60)
      recordLoopE identifier reqId now rest rs2
    else recordLoopE identifier reqId now rest rs

/-- `RateLimiter.is_rate_limited` over the fallible store: any store failure
propagates out (the Python method has no exception handler). -/
def is_rate_limitedE (rs : RStore) (identifier : String) (objId : ℕ) (limits : Limits)
    (burst : ℤ) (now : ℚ) : Except String (Bool × LimitInfo × RStore) := do
  match ← checkLoopE identifier now burst (windowsOf limits) rs initInfo with
  | (true, info, rs1) => pure (true, info, rs1)
  | (false, info, rs1) => do
      let rs2 ← recordLoopE identifier (now, objId) now (windowsOf limits) rs1
      pure (false, info, rs2)

/-- An HTTP response: status, header list, opaque body. -/
structure HttpResponse where
  status : ℕ
  headers : List (String × String)
  body : String
deriving DecidableEq, Repr

/-- `response.headers[k] = v` on starlette's mutable headers: replace the
existing entry or append a new one. -/
def setHeader (hs : List (String × String)) (k v : String) : List (String × String) :=
  if hs.any (fun p => p.1 = k) then hs.map (fun p => if p.1 = k then (k, v) else p)
  else hs ++ [(k, v)]

/-- Header lookup (first match). -/
def headerGet (hs : List (String × String)) (k : String) : Option String :=
  (hs.find? (fun p => p.1 = k)).map (fun p => p.2)

/-- The unmetered operational paths skipped by the middleware. -/
def allowListPaths : List String := ["/health", "/metrics", "/docs", "/redoc", "/openapi.json"]

/-- The `response_headers` dict built by `RateLimitMiddleware.dispatch`. -/
def rlHeaders (info : LimitInfo) : List (String × String) :=
  [("X-RateLimit-Limit", toString info.limit),
   ("X-RateLimit-Remaining", toString info.remaining),
   ("X-RateLimit-Reset", toString info.reset)]

/-- `RateLimitMiddleware.dispatch`.  The identifier/limit-profile resolution
(`_get_identifier`, `_get_limits`) and the settings burst are passed in as
already-resolved parameters; `call_next` is the downstream handler, which
either returns a response or raises.  There is no try/except: a store failure
or a downstream exception propagates as `Except.error`. -/
def dispatch (enabled : Bool) (path : String) (identifier : String) (objId : ℕ)
    (limits : Limits) (burst : ℤ) (now : ℚ) (rs : RStore)
    (call_next : Except String HttpResponse) : Except String (HttpResponse × RStore) :=
  if !enabled then do
    let resp ← call_next
    pure (resp, rs)
  else if path ∈ allowListPaths then do
    let resp ← call_next
    pure (resp, rs)
  else do
    let r ← is_rate_limitedE rs identifier objId limits burst now
    let hdrs := rlHeaders r.2.1
    if r.1 then
      pure ({ status := 429,
              headers := setHeader hdrs "Retry-After" (toString r.2.1.retry_after),
              body := "rate_limit_exceeded" }, r.2.2)
    else do
      let resp ← call_next
      pure ({ resp with
              headers := hdrs.foldl (fun acc p => setHeader acc p.1 p.2) resp.headers }, r.2.2)

/-- Duration (in seconds) of a window name, as evaluated by the check loop. -/
def durOf (w : String) : ℚ :=
  if w = "minute" then 60 else if w = "hour" then 3600 else if w = "day" then 86400 else 0

/-- The limit that the `windows` dict of `is_rate_limited` associates to a
window name. -/
def limitFor (lims : Limits) (w : String) : ℤ :=
  if w = "minute" then lims.per_minute else if w = "hour" then lims.per_hour
  else if w = "day" then lims.per_day else 0

/-! ### Basic lemmas about the store primitives -/

lemma setZ_sets_self (st : Store) (k : String) (z : ZSet) : (st.setZ k z).sets k = z := by
  simp [Store.setZ]

lemma setZ_sets_ne (st : Store) (k k' : String) (z : ZSet) (h : k' ≠ k) :
    (st.setZ k z).sets k' = st.sets k' := by
  simp [Store.setZ, h]

lemma setZ_ttl (st : Store) (k : String) (z : ZSet) : (st.setZ k z).ttl = st.ttl := rfl

lemma setTtl_sets (st : Store) (k : String) (t : ℚ) : (st.setTtl k t).sets = st.sets := rfl

lemma zrem_subset {z : ZSet} {c : ℚ} {e : Member × ℚ} (h : e ∈ zremrangebyscore z c) : e ∈ z :=
  List.mem_of_mem_filter h

lemma zrem_score_gt {z : ZSet} {c : ℚ} {e : Member × ℚ} (h : e ∈ zremrangebyscore z c) :
    c < e.2 := by
  have := List.of_mem_filter h
  exact of_decide_eq_true this

lemma zrem_eq_self {z : ZSet} {c : ℚ} (h : ∀ e ∈ z, c < e.2) : zremrangebyscore z c = z :=
  List.filter_eq_self.mpr (fun e he => decide_eq_true (h e he))

lemma zrem_eq_nil {z : ZSet} {c : ℚ} (h : ∀ e ∈ z, e.2 ≤ c) : zremrangebyscore z c = [] := by
  rw [zremrangebyscore, List.filter_eq_nil_iff]
  intro e he hc
  exact absurd (of_decide_eq_true hc) (not_lt.mpr (h e he))

lemma zadd_fresh {z : ZSet} {m : Member} {s : ℚ} (h : ∀ e ∈ z, e.1 ≠ m) :
    zadd z m s = z ++ [(m, s)] := by
  rw [zadd, if_neg]
  intro hc
  rw [List.any_eq_true] at hc
  obtain ⟨e, he, hp⟩ := hc
  exact h e he (of_decide_eq_true hp)

lemma minScore_spec {z : ZSet} {m : ℚ} (h : minScore z = some m) :
    (∃ e ∈ z, e.2 = m) ∧ ∀ e ∈ z, m ≤ e.2 := by
  induction z generalizing m with
  | nil => simp [minScore] at h
  | cons e rest ih =>
    rw [minScore] at h
    rcases hr : minScore rest with _ | m'
    · rw [hr] at h
      obtain rfl : e.2 = m := by simpa using h
      have hnil : rest = [] := by
        cases rest with
        | nil => rfl
        | cons f r =>
          rw [minScore] at hr
          rcases hmr : minScore r with _ | x <;> rw [hmr] at hr <;> simp at hr
      subst hnil
      exact ⟨⟨e, by simp, rfl⟩, by simp⟩
    · rw [hr] at h
      have hm : m = min e.2 m' := by
        have := h
        simp only [Option.some.injEq] at this
        exact this.symm
      obtain ⟨⟨f, hf, hfm⟩, hle⟩ := ih hr
      subst hm
      rcases le_total e.2 m' with hc | hc
      · rw [min_eq_left hc]
        refine ⟨⟨e, by simp, rfl⟩, ?_⟩
        intro g hg
        rcases List.mem_cons.mp hg with rfl | hg
        · exact le_refl _
        · exact le_trans hc (hle g hg)
      · rw [min_eq_right hc]
        refine ⟨⟨f, by simp [hf], hfm⟩, ?_⟩
        intro g hg
        rcases List.mem_cons.mp hg with rfl | hg
        · exact hc
        · exact hle g hg

lemma minScore_isSome {z : ZSet} (h : z ≠ []) : ∃ m, minScore z = some m := by
  cases z with
  | nil => exact absurd rfl h
  | cons e rest =>
    rw [minScore]
    rcases minScore rest with _ | m'
    · exact ⟨e.2, rfl⟩
    · exact ⟨min e.2 m', rfl⟩

lemma pyInt_le {q : ℚ} {n : ℤ} (h : q ≤ n) : pyInt q ≤ n := by
  rw [pyInt]
  split
  · exact le_trans (Int.floor_le_floor h) (by simp)
  · exact Int.ceil_le.mpr h

/-! ### Keys for the three window names are pairwise distinct -/

lemma getKey_length (identifier w : String) :
    (getKey identifier w).length = identifier.length + w.length + 11 := by
  have h1 : "ratelimit:".length = 10 := rfl
  have h2 : ":".length = 1 := rfl
  simp [getKey, String.length_append, h1, h2]
  omega

lemma getKey_ne_of_length (identifier : String) {w w' : String} (h : w.length ≠ w'.length) :
    getKey identifier w ≠ getKey identifier w' := by
  intro hc
  apply h
  have := congrArg String.length hc
  rw [getKey_length, getKey_length] at this
  omega

lemma key_minute_ne_hour (identifier : String) :
    getKey identifier "minute" ≠ getKey identifier "hour" :=
  getKey_ne_of_length identifier (by decide)

lemma key_minute_ne_day (identifier : String) :
    getKey identifier "minute" ≠ getKey identifier "day" :=
  getKey_ne_of_length identifier (by decide)

lemma key_hour_ne_day (identifier : String) :
    getKey identifier "hour" ≠ getKey identifier "day" :=
  getKey_ne_of_length identifier (by decide)

/-! ### Structural lemmas about the check and record loops -/

lemma checkLoop_ttl (identifier : String) (now : ℚ) (b : ℤ) :
    ∀ (entries : List (String × ℚ × ℤ)) (st : Store) (info : LimitInfo),
      ((checkLoop identifier now b entries st info).2.2).ttl = st.ttl := by
  intro entries
  induction entries with
  | nil => intro st info; rfl
  | cons en rest ih =>
    intro st info
    obtain ⟨w, ws, l⟩ := en
    simp only [checkLoop]
    split
    · exact ih st info
    · split
      · split
        · simp [Store.setZ]
        · rw [ih]; simp [Store.setZ]
      · rw [ih]; simp [Store.setZ]

lemma checkLoop_sets_subset (identifier : String) (now : ℚ) (b : ℤ) :
    ∀ (entries : List (String × ℚ × ℤ)) (st : Store) (info : LimitInfo) (k : String)
      (e : Member × ℚ),
      e ∈ ((checkLoop identifier now b entries st info).2.2).sets k → e ∈ st.sets k := by
  intro entries
  induction entries with
  | nil => intro st info k e he; exact he
  | cons en rest ih =>
    intro st info k e he
    obtain ⟨w, ws, l⟩ := en
    simp only [checkLoop] at he
    by_cases hl : l = 0
    · rw [if_pos hl] at he
      exact ih st info k e he
    · rw [if_neg hl] at he
      have hstep : ∀ f, f ∈ ((st.setZ (getKey identifier w)
          (zremrangebyscore (st.sets (getKey identifier w)) (now - ws))).sets k) →
          f ∈ st.sets k := by
        intro f hf
        by_cases hk : k = getKey identifier w
        · subst hk
          rw [setZ_sets_self] at hf
          exact zrem_subset hf
        · rwa [setZ_sets_ne _ _ _ _ hk] at hf
      split at he
      · split at he
        · exact hstep e he
        · exact hstep e (ih _ _ k e he)
      · exact hstep e (ih _ _ k e he)

lemma checkLoop_sets_frame (identifier : String) (now : ℚ) (b : ℤ) :
    ∀ (entries : List (String × ℚ × ℤ)) (st : Store) (info : LimitInfo) (k : String),
      (∀ en ∈ entries, en.2.2 ≠ 0 → getKey identifier en.1 ≠ k) →
      ((checkLoop identifier now b entries st info).2.2).sets k = st.sets k := by
  intro entries
  induction entries with
  | nil => intro st info k _; rfl
  | cons en rest ih =>
    intro st info k hk
    obtain ⟨w, ws, l⟩ := en
    simp only [checkLoop]
    by_cases hl : l = 0
    · rw [if_pos hl]
      exact ih st info k (fun e he => hk e (List.mem_cons_of_mem _ he))
    · rw [if_neg hl]
      have hkw : getKey identifier w ≠ k := hk (w, ws, l) (List.mem_cons_self _ _) hl
      have hstep : ((st.setZ (getKey identifier w)
          (zremrangebyscore (st.sets (getKey identifier w)) (now - ws))).sets k) = st.sets k :=
        setZ_sets_ne _ _ _ _ (fun hc => hkw hc.symm)
      split
      · split
        · simpa using hstep
        · rw [ih _ _ k (fun e he => hk e (List.mem_cons_of_mem _ he))]
          exact hstep
      · rw [ih _ _ k (fun e he => hk e (List.mem_cons_of_mem _ he))]
        exact hstep

lemma checkLoop_limited_window (identifier : String) (now : ℚ) (b : ℤ) :
    ∀ (entries : List (String × ℚ × ℤ)) (st : Store) (info : LimitInfo),
      (checkLoop identifier now b entries st info).1 = true →
      ∃ en ∈ entries, en.2.2 ≠ 0 ∧
        (checkLoop identifier now b entries st info).2.1.window = en.1 := by
  intro entries
  induction entries with
  | nil => intro st info h; exact absurd h (by simp [checkLoop])
  | cons en rest ih =>
    intro st info
    obtain ⟨w, ws, l⟩ := en
    simp only [checkLoop]
    by_cases hl : l = 0
    · rw [if_pos hl]
      intro h
      obtain ⟨f, hf, hfl, hfw⟩ := ih st info h
      exact ⟨f, List.mem_cons_of_mem _ hf, hfl, hfw⟩
    · rw [if_neg hl]
      split
      · split
        · intro _
          exact ⟨(w, ws, l), List.mem_cons_self _ _, hl, rfl⟩
        · intro h
          obtain ⟨f, hf, hfl, hfw⟩ := ih _ _ h
          exact ⟨f, List.mem_cons_of_mem _ hf, hfl, hfw⟩
      · intro h
        obtain ⟨f, hf, hfl, hfw⟩ := ih _ _ h
        exact ⟨f, List.mem_cons_of_mem _ hf, hfl, hfw⟩

lemma checkLoop_sets_cases (identifier : String) (now : ℚ) (b : ℤ) :
    ∀ (entries : List (String × ℚ × ℤ)) (st : Store) (info : LimitInfo) (k : String),
      (entries.map (fun en => getKey identifier en.1)).Nodup →
      ((checkLoop identifier now b entries st info).2.2).sets k = st.sets k ∨
      ∃ en ∈ entries, en.2.2 ≠ 0 ∧ k = getKey identifier en.1 ∧
        ((checkLoop identifier now b entries st info).2.2).sets k
          = zremrangebyscore (st.sets k) (now - en.2.1) := by
  intro entries
  induction entries with
  | nil => intro st info k _; exact Or.inl rfl
  | cons en rest ih =>
    intro st info k hnd
    obtain ⟨w, ws, l⟩ := en
    rw [List.map_cons, List.nodup_cons] at hnd
    obtain ⟨hkey, hndr⟩ := hnd
    simp only [checkLoop]
    by_cases hl : l = 0
    · rw [if_pos hl]
      rcases ih st info k hndr with h | ⟨f, hf, hfl, hfk, hfz⟩
      · exact Or.inl h
      · exact Or.inr ⟨f, List.mem_cons_of_mem _ hf, hfl, hfk, hfz⟩
    · rw [if_neg hl]
      set key := getKey identifier w with hkeydef
      set z := zremrangebyscore (st.sets key) (now - ws) with hzdef
      have hstep : ∀ k', ((st.setZ key z).sets k') = if k' = key then z else st.sets k' := by
        intro k'; rfl
      have hcont : ∀ info',
          ((checkLoop identifier now b rest (st.setZ key z) info').2.2).sets k = st.sets k ∨
          ∃ f ∈ (w, ws, l) :: rest, f.2.2 ≠ 0 ∧ k = getKey identifier f.1 ∧
            ((checkLoop identifier now b rest (st.setZ key z) info').2.2).sets k
              = zremrangebyscore (st.sets k) (now - f.2.1) := by
        intro info'
        rcases ih (st.setZ key z) info' k hndr with h | ⟨f, hf, hfl, hfk, hfz⟩
        · rw [h, hstep]
          by_cases hk : k = key
          · subst hk
            rw [if_pos rfl]
            exact Or.inr ⟨(w, ws, l), List.mem_cons_self _ _, hl, hkeydef, rfl⟩
          · rw [if_neg hk]
            exact Or.inl rfl
        · have hkne : k ≠ key := by
            intro hc
            apply hkey
            rw [← hc, hfk]
            exact List.mem_map_of_mem _ hf
          rw [hstep, if_neg hkne] at hfz
          exact Or.inr ⟨f, List.mem_cons_of_mem _ hf, hfl, hfk, hfz⟩
      split
      · split
        · by_cases hk : k = key
          · subst hk
            exact Or.inr ⟨(w, ws, l), List.mem_cons_self _ _, hl, hkeydef, by rw [hstep, if_pos rfl]⟩
          · exact Or.inl (by rw [hstep, if_neg hk])
        · exact hcont _
      · exact hcont _

lemma checkLoop_limited_info (identifier : String) (now : ℚ) (b : ℤ) :
    ∀ (entries : List (String × ℚ × ℤ)) (st : Store) (info : LimitInfo),
      (entries.map (fun en => getKey identifier en.1)).Nodup →
      (checkLoop identifier now b entries st info).1 = true →
      ∃ en ∈ entries, en.2.2 ≠ 0 ∧ ∃ m,
        minScore (zremrangebyscore (st.sets (getKey identifier en.1)) (now - en.2.1)) = some m ∧
        (checkLoop identifier now b entries st info).2.1 = denyInfo en.1 en.2.1 en.2.2 m now := by
  intro entries
  induction entries with
  | nil => intro st info _ h; exact absurd h (by simp [checkLoop])
  | cons en rest ih =>
    intro st info hnd
    obtain ⟨w, ws, l⟩ := en
    rw [List.map_cons, List.nodup_cons] at hnd
    obtain ⟨hkey, hndr⟩ := hnd
    simp only [checkLoop]
    by_cases hl : l = 0
    · rw [if_pos hl]
      intro h
      obtain ⟨f, hf, hfl, m, hm, hi⟩ := ih st info hndr h
      exact ⟨f, List.mem_cons_of_mem _ hf, hfl, m, hm, hi⟩
    · rw [if_neg hl]
      set key := getKey identifier w with hkeydef
      set z := zremrangebyscore (st.sets key) (now - ws) with hzdef
      have hcont : ∀ info',
          (checkLoop identifier now b rest (st.setZ key z) info').1 = true →
          ∃ f ∈ (w, ws, l) :: rest, f.2.2 ≠ 0 ∧ ∃ m,
            minScore (zremrangebyscore (st.sets (getKey identifier f.1)) (now - f.2.1)) = some m ∧
            (checkLoop identifier now b rest (st.setZ key z) info').2.1
              = denyInfo f.1 f.2.1 f.2.2 m now := by
        intro info' h
        obtain ⟨f, hf, hfl, m, hm, hi⟩ := ih (st.setZ key z) info' hndr h
        have hkne : getKey identifier f.1 ≠ key := by
          intro hc
          apply hkey
          rw [← hc]
          exact List.mem_map_of_mem _ hf
        rw [setZ_sets_ne _ _ _ _ hkne] at hm
        exact ⟨f, List.mem_cons_of_mem _ hf, hfl, m, hm, hi⟩
      split
      · rename_i hge
        split
        · rename_i m hm
          intro _
          exact ⟨(w, ws, l), List.mem_cons_self _ _, hl, m, hm, rfl⟩
        · exact hcont _
      · exact hcont _

lemma checkLoop_info_of_not_limited (identifier : String) (now : ℚ) (b : ℤ) :
    ∀ (entries : List (String × ℚ × ℤ)) (st : Store) (info : LimitInfo),
      (∀ en ∈ entries, en.1 ≠ "minute") →
      (checkLoop identifier now b entries st info).1 = false →
      (checkLoop identifier now b entries st info).2.1 = info := by
  intro entries
  induction entries with
  | nil => intro st info _ _; rfl
  | cons en rest ih =>
    intro st info hw
    obtain ⟨w, ws, l⟩ := en
    have hwm : w ≠ "minute" := hw (w, ws, l) (List.mem_cons_self _ _)
    have hupd : ∀ c, updateHeader w ws l c now info = info := by
      intro c; rw [updateHeader, if_neg hwm]
    simp only [checkLoop]
    by_cases hl : l = 0
    · rw [if_pos hl]
      exact ih st info (fun e he => hw e (List.mem_cons_of_mem _ he))
    · rw [if_neg hl]
      split
      · split
        · intro h; exact absurd h (by simp)
        · intro h
          rw [ih _ _ (fun e he => hw e (List.mem_cons_of_mem _ he)) h, hupd]
      · intro h
        rw [ih _ _ (fun e he => hw e (List.mem_cons_of_mem _ he)) h, hupd]

lemma recordLoop_frame (identifier : String) (reqId : Member) (now : ℚ) :
    ∀ (entries : List (String × ℚ × ℤ)) (st : Store) (k : String),
      (∀ en ∈ entries, 0 < en.2.2 → getKey identifier en.1 ≠ k) →
      (recordLoop identifier reqId now entries st).sets k = st.sets k ∧
      (recordLoop identifier reqId now entries st).ttl k = st.ttl k := by
  intro entries
  induction entries with
  | nil => intro st k _; exact ⟨rfl, rfl⟩
  | cons en rest ih =>
    intro st k hk
    obtain ⟨w, ws, l⟩ := en
    simp only [recordLoop]
    by_cases hl : 0 < l
    · rw [if_pos hl]
      have hkw : getKey identifier w ≠ k := hk (w, ws, l) (List.mem_cons_self _ _) hl
      have hkn : k ≠ getKey identifier w := fun hc => hkw hc.symm
      obtain ⟨h1, h2⟩ := ih _ k (fun e he => hk e (List.mem_cons_of_mem _ he))
      refine ⟨?_, ?_⟩
      · rw [h1]
        simp [Store.setZ, Store.setTtl, hkn]
      · rw [h2]
        simp [Store.setZ, Store.setTtl, hkn]
    · rw [if_neg hl]
      exact ih _ k (fun e he => hk e (List.mem_cons_of_mem _ he))

/-! ### Step-rewriting lemmas for the loops -/

lemma checkLoop_nil_eq (identifier : String) (now : ℚ) (b : ℤ) (st : Store) (info : LimitInfo) :
    checkLoop identifier now b [] st info = (false, info, st) := rfl

lemma checkLoop_cons_zero (identifier : String) (now : ℚ) (b : ℤ) (w : String) (ws : ℚ)
    (rest : List (String × ℚ × ℤ)) (st : Store) (info : LimitInfo) :
    checkLoop identifier now b ((w, ws, 0) :: rest) st info
      = checkLoop identifier now b rest st info := by
  rw [checkLoop, if_pos rfl]

lemma checkLoop_cons_deny (identifier : String) (now : ℚ) (b : ℤ) (w : String) (ws : ℚ) (l : ℤ)
    (rest : List (String × ℚ × ℤ)) (st : Store) (info : LimitInfo) (m : ℚ) (hl : l ≠ 0)
    (hge : l + b ≤ ((zremrangebyscore (st.sets (getKey identifier w)) (now - ws)).length : ℤ))
    (hm : minScore (zremrangebyscore (st.sets (getKey identifier w)) (now - ws)) = some m) :
    checkLoop identifier now b ((w, ws, l) :: rest) st info =
      (true, denyInfo w ws l m now,
       st.setZ (getKey identifier w) (zremrangebyscore (st.sets (getKey identifier w)) (now - ws))) := by
  simp [checkLoop, hl, hge, hm, zcard]

lemma checkLoop_cons_pass (identifier : String) (now : ℚ) (b : ℤ) (w : String) (ws : ℚ) (l : ℤ)
    (rest : List (String × ℚ × ℤ)) (st : Store) (info : LimitInfo) (hl : l ≠ 0)
    (hlt : ((zremrangebyscore (st.sets (getKey identifier w)) (now - ws)).length : ℤ) < l + b) :
    checkLoop identifier now b ((w, ws, l) :: rest) st info =
      checkLoop identifier now b rest
        (st.setZ (getKey identifier w) (zremrangebyscore (st.sets (getKey identifier w)) (now - ws)))
        (updateHeader w ws l (zremrangebyscore (st.sets (getKey identifier w)) (now - ws)).length
          now info) := by
  simp [checkLoop, hl, not_le.mpr hlt, zcard]

lemma checkLoop_cons_emptyz (identifier : String) (now : ℚ) (b : ℤ) (w : String) (ws : ℚ)
    (l : ℤ) (rest : List (String × ℚ × ℤ)) (st : Store) (info : LimitInfo) (hl : l ≠ 0)
    (hz : zremrangebyscore (st.sets (getKey identifier w)) (now - ws) = []) :
    checkLoop identifier now b ((w, ws, l) :: rest) st info =
      checkLoop identifier now b rest (st.setZ (getKey identifier w) [])
        (updateHeader w ws l 0 now info) := by
  rw [checkLoop, if_neg hl]
  simp only [hz, zcard, List.length_nil, minScore]
  split <;> rfl

lemma recordLoop_nil_eq (identifier : String) (reqId : Member) (now : ℚ) (st : Store) :
    recordLoop identifier reqId now [] st = st := rfl

lemma recordLoop_cons_pos (identifier : String) (reqId : Member) (now : ℚ) (w : String) (ws : ℚ)
    (l : ℤ) (rest : List (String × ℚ × ℤ)) (st : Store) (hl : 0 < l) :
    recordLoop identifier reqId now ((w, ws, l) :: rest) st =
      recordLoop identifier reqId now rest
        ((st.setZ (getKey identifier w) (zadd (st.sets (getKey identifier w)) reqId now)).setTtl
          (getKey identifier w) (ws + 60)) := by
  simp [recordLoop, hl]

lemma recordLoop_cons_nonpos (identifier : String) (reqId : Member) (now : ℚ) (w : String)
    (ws : ℚ) (l : ℤ) (rest : List (String × ℚ × ℤ)) (st : Store) (hl : ¬ 0 < l) :
    recordLoop identifier reqId now ((w, ws, l) :: rest) st =
      recordLoop identifier reqId now rest st := by
  simp [recordLoop, hl]

lemma winDur_pos (i : ℕ) : 0 < winDur i := by
  rcases i with _ | _ | n <;> norm_num [winDur]

/-- One `is_rate_limited` evaluation under a single configured window:
deny (with the trimmed set untouched) when the trimmed count reaches
`L + b`, otherwise admit, refresh the header info, and record the marker. -/
lemma single_step (i : ℕ) (L b : ℤ) (hL : 0 < L) (hb : 0 ≤ b)
    (st : Store) (identifier : String) (o : ℕ) (now : ℚ) :
    is_rate_limited st identifier o (singleLimits i L) b now =
      if L + b ≤ ((singleZ st identifier i now).length : ℤ) then
        (true,
         denyInfo (winName i) (winDur i) L ((minScore (singleZ st identifier i now)).getD 0) now,
         st.setZ (getKey identifier (winName i)) (singleZ st identifier i now))
      else
        (false,
         updateHeader (winName i) (winDur i) L (singleZ st identifier i now).length now initInfo,
         ((st.setZ (getKey identifier (winName i)) (singleZ st identifier i now)).setZ
             (getKey identifier (winName i))
             (zadd (singleZ st identifier i now) (now, o) now)).setTtl
           (getKey identifier (winName i)) (winDur i + 60)) := by
  have hLne : L ≠ 0 := ne_of_gt hL
  have h0 : ¬ (0 : ℤ) < 0 := by norm_num
  rcases i with _ | _ | n
  · by_cases hge : L + b ≤ ((singleZ st identifier 0 now).length : ℤ)
    · have hz : singleZ st identifier 0 now ≠ [] := by
        intro hc
        rw [hc] at hge
        simp at hge
        omega
      obtain ⟨m, hm⟩ := minScore_isSome hz
      rw [if_pos hge, hm]
      simp only [singleZ, winName, winDur] at hm hge ⊢
      rw [is_rate_limited, show windowsOf (singleLimits 0 L)
        = [("minute", (60 : ℚ), L), ("hour", (3600 : ℚ), (0 : ℤ)),
           ("day", (86400 : ℚ), (0 : ℤ))] from rfl]
      rw [checkLoop_cons_deny _ _ _ _ _ _ _ _ _ m hLne hge hm]
      rfl
    · rw [if_neg hge]
      push_neg at hge
      simp only [singleZ, winName, winDur] at hge ⊢
      rw [is_rate_limited, show windowsOf (singleLimits 0 L)
        = [("minute", (60 : ℚ), L), ("hour", (3600 : ℚ), (0 : ℤ)),
           ("day", (86400 : ℚ), (0 : ℤ))] from rfl]
      rw [checkLoop_cons_pass _ _ _ _ _ _ _ _ _ hLne hge, checkLoop_cons_zero,
        checkLoop_cons_zero, checkLoop_nil_eq]
      dsimp only
      rw [recordLoop_cons_pos _ _ _ _ _ _ _ _ hL, setZ_sets_self,
        recordLoop_cons_nonpos _ _ _ _ _ _ _ _ h0, recordLoop_cons_nonpos _ _ _ _ _ _ _ _ h0,
        recordLoop_nil_eq]
  · by_cases hge : L + b ≤ ((singleZ st identifier 1 now).length : ℤ)
    · have hz : singleZ st identifier 1 now ≠ [] := by
        intro hc
        rw [hc] at hge
        simp at hge
        omega
      obtain ⟨m, hm⟩ := minScore_isSome hz
      rw [if_pos hge, hm]
      simp only [singleZ, winName, winDur] at hm hge ⊢
      rw [is_rate_limited, show windowsOf (singleLimits 1 L)
        = [("minute", (60 : ℚ), (0 : ℤ)), ("hour", (3600 : ℚ), L),
           ("day", (86400 : ℚ), (0 : ℤ))] from rfl]
      rw [checkLoop_cons_zero, checkLoop_cons_deny _ _ _ _ _ _ _ _ _ m hLne hge hm]
      rfl
    · rw [if_neg hge]
      push_neg at hge
      simp only [singleZ, winName, winDur] at hge ⊢
      rw [is_rate_limited, show windowsOf (singleLimits 1 L)
        = [("minute", (60 : ℚ), (0 : ℤ)), ("hour", (3600 : ℚ), L),
           ("day", (86400 : ℚ), (0 : ℤ))] from rfl]
      rw [checkLoop_cons_zero, checkLoop_cons_pass _ _ _ _ _ _ _ _ _ hLne hge,
        checkLoop_cons_zero, checkLoop_nil_eq]
      dsimp only
      rw [recordLoop_cons_nonpos _ _ _ _ _ _ _ _ h0,
        recordLoop_cons_pos _ _ _ _ _ _ _ _ hL, setZ_sets_self,
        recordLoop_cons_nonpos _ _ _ _ _ _ _ _ h0, recordLoop_nil_eq]
  · by_cases hge : L + b ≤ ((singleZ st identifier (n + 2) now).length : ℤ)
    · have hz : singleZ st identifier (n + 2) now ≠ [] := by
        intro hc
        rw [hc] at hge
        simp at hge
        omega
      obtain ⟨m, hm⟩ := minScore_isSome hz
      rw [if_pos hge, hm]
      simp only [singleZ, winName, winDur] at hm hge ⊢
      rw [is_rate_limited, show windowsOf (singleLimits (n + 2) L)
        = [("minute", (60 : ℚ), (0 : ℤ)), ("hour", (3600 : ℚ), (0 : ℤ)),
           ("day", (86400 : ℚ), L)] from rfl]
      rw [checkLoop_cons_zero, checkLoop_cons_zero,
        checkLoop_cons_deny _ _ _ _ _ _ _ _ _ m hLne hge hm]
      rfl
    · rw [if_neg hge]
      push_neg at hge
      simp only [singleZ, winName, winDur] at hge ⊢
      rw [is_rate_limited, show windowsOf (singleLimits (n + 2) L)
        = [("minute", (60 : ℚ), (0 : ℤ)), ("hour", (3600 : ℚ), (0 : ℤ)),
           ("day", (86400 : ℚ), L)] from rfl]
      rw [checkLoop_cons_zero, checkLoop_cons_zero,
        checkLoop_cons_pass _ _ _ _ _ _ _ _ _ hLne hge, checkLoop_nil_eq]
      dsimp only
      rw [recordLoop_cons_nonpos _ _ _ _ _ _ _ _ h0, recordLoop_cons_nonpos _ _ _ _ _ _ _ _ h0,
        recordLoop_cons_pos _ _ _ _ _ _ _ _ hL, setZ_sets_self, recordLoop_nil_eq]

/-! ### Runs of sequential calls against a single configured window -/

lemma entriesOf_length (calls : List (ℚ × ℕ)) : (entriesOf calls).length = calls.length :=
  List.length_map _ _

lemma updateHeader_window (w : String) (ws : ℚ) (l : ℤ) (c : ℕ) (now : ℚ) (info : LimitInfo) :
    (updateHeader w ws l c now info).window = info.window := by
  rw [updateHeader]
  split <;> rfl

lemma runCalls_append (identifier : String) (limits : Limits) (b : ℤ)
    (as bs : List (ℚ × ℕ)) (st : Store) :
    runCalls identifier limits b (as ++ bs) st =
      ((runCalls identifier limits b bs (runCalls identifier limits b as st).1).1,
       (runCalls identifier limits b as st).2
         ++ (runCalls identifier limits b bs (runCalls identifier limits b as st).1).2) := by
  induction as generalizing st with
  | nil => simp [runCalls]
  | cons c rest ih =>
    obtain ⟨t, o⟩ := c
    simp only [List.cons_append, runCalls, List.append_eq]
    rw [ih]

/-- Invariant run lemma: starting from a store whose active window holds the
markers of `prev`, a batch of fresh in-window calls that keeps the total at or
under `L + b` is admitted throughout, never sets a window tag, and leaves
exactly the markers of `prev ++ calls` in the active window. -/
lemma run_single_admits (i : ℕ) (L b : ℤ) (hL : 0 < L) (hb : 0 ≤ b) (identifier : String) :
    ∀ (calls prev : List (ℚ × ℕ)) (st : Store),
      st.sets (getKey identifier (winName i)) = entriesOf prev →
      (prev ++ calls).Nodup →
      List.Pairwise (fun a c => c.1 - a.1 < winDur i) (prev ++ calls) →
      ((prev.length : ℤ) + calls.length ≤ L + b) →
      (runCalls identifier (singleLimits i L) b calls st).2.map Prod.fst
          = List.replicate calls.length false
      ∧ (runCalls identifier (singleLimits i L) b calls st).2.map (fun r => r.2.window)
          = List.replicate calls.length ""
      ∧ (runCalls identifier (singleLimits i L) b calls st).1.sets
            (getKey identifier (winName i))
          = entriesOf (prev ++ calls) := by
  intro calls
  induction calls with
  | nil =>
    intro prev st hset _ _ _
    refine ⟨rfl, rfl, ?_⟩
    simpa [runCalls] using hset
  | cons c rest ih =>
    intro prev st hset hnd hpw hlen
    obtain ⟨t, o⟩ := c
    have hz : singleZ st identifier i t = entriesOf prev := by
      rw [singleZ, hset]
      apply zrem_eq_self
      intro e he
      obtain ⟨p, hp, rfl⟩ := List.mem_map.mp he
      have hcl := (List.pairwise_append.mp hpw).2.2 p hp (t, o) (by simp)
      dsimp only at hcl ⊢
      linarith
    have hlt : ¬ L + b ≤ ((singleZ st identifier i t).length : ℤ) := by
      rw [hz, entriesOf_length]
      push_neg
      have : (prev.length : ℤ) + (rest.length + 1) ≤ L + b := by

        simpa [Nat.cast_add] using hlen
      omega
    have hfresh : (t, o) ∉ prev := by
      intro hc
      have hdisj := (List.nodup_append.mp hnd).2.2
      exact hdisj hc (List.mem_cons_self _ _)
    have hrec : zadd (entriesOf prev) (t, o) t = entriesOf (prev ++ [(t, o)]) := by
      have hne : ∀ e ∈ entriesOf prev, e.1 ≠ (t, o) := by
        intro e he
        obtain ⟨p, hp, rfl⟩ := List.mem_map.mp he
        dsimp only
        intro hc
        exact hfresh (by rwa [show p = (t, o) from hc] at hp)
      rw [zadd_fresh hne]
      simp [entriesOf]
    have hstep := single_step i L b hL hb st identifier o t
    rw [if_neg hlt] at hstep
    have hassoc : prev ++ (t, o) :: rest = (prev ++ [(t, o)]) ++ rest := by
      rw [List.append_assoc]
      rfl
    rw [hassoc] at hnd hpw
    have hset2 :
        ((((st.setZ (getKey identifier (winName i)) (singleZ st identifier i t)).setZ
            (getKey identifier (winName i)) (zadd (singleZ st identifier i t) (t, o) t)).setTtl
          (getKey identifier (winName i)) (winDur i + 60)).sets (getKey identifier (winName i)))
          = entriesOf (prev ++ [(t, o)]) := by
      rw [setTtl_sets, setZ_sets_self, hz, hrec]
    have hlen2 : (((prev ++ [(t, o)]).length : ℤ) + rest.length ≤ L + b) := by
      have : (prev.length : ℤ) + (rest.length + 1) ≤ L + b := by
        simpa [Nat.cast_add] using hlen
      simp only [List.length_append, List.length_cons, List.length_nil]
      push_cast
      omega
    obtain ⟨ih1, ih2, ih3⟩ := ih (prev ++ [(t, o)]) _ hset2 hnd hpw hlen2
    simp only [runCalls, hstep]
    refine ⟨?_, ?_, ?_⟩
    · simp only [List.map_cons, ih1, List.length_cons, List.replicate_succ]
    · simp only [List.map_cons, ih2, List.length_cons, List.replicate_succ,
        updateHeader_window]
      rfl
    · rw [ih3, hassoc]

/-- After the active window already holds the markers of `prev` with
`|prev| ≥ L + b`, a further in-window call is denied, tagged with the active
window's name and limit, with zero remaining quota. -/
lemma run_single_denied (i : ℕ) (L b : ℤ) (hL : 0 < L) (hb : 0 ≤ b) (identifier : String)
    (st : Store) (prev : List (ℚ × ℕ)) (c : ℚ × ℕ)
    (hset : st.sets (getKey identifier (winName i)) = entriesOf prev)
    (hwin : ∀ p ∈ prev, c.1 - p.1 < winDur i)
    (hlen : L + b ≤ (prev.length : ℤ)) :
    (is_rate_limited st identifier c.2 (singleLimits i L) b c.1).1 = true ∧
    (is_rate_limited st identifier c.2 (singleLimits i L) b c.1).2.1.window = winName i ∧
    (is_rate_limited st identifier c.2 (singleLimits i L) b c.1).2.1.limit = L ∧
    (is_rate_limited st identifier c.2 (singleLimits i L) b c.1).2.1.remaining = 0 := by
  have hz : singleZ st identifier i c.1 = entriesOf prev := by
    rw [singleZ, hset]
    apply zrem_eq_self
    intro e he
    obtain ⟨p, hp, rfl⟩ := List.mem_map.mp he
    dsimp only
    have := hwin p hp
    linarith
  have hge : L + b ≤ ((singleZ st identifier i c.1).length : ℤ) := by
    rw [hz, entriesOf_length]
    exact hlen
  rw [single_step i L b hL hb st identifier c.2 c.1, if_pos hge]
  exact ⟨rfl, rfl, rfl, rfl⟩

/-! ### The fallible embedding agrees with the pure one on a healthy store,
and propagates the failure on an unreachable one -/

lemma checkLoopE_ok (identifier : String) (now : ℚ) (b : ℤ) :
    ∀ (entries : List (String × ℚ × ℤ)) (st : Store) (info : LimitInfo),
      checkLoopE identifier now b entries ⟨true, st⟩ info =
        .ok ((checkLoop identifier now b entries st info).1,
             (checkLoop identifier now b entries st info).2.1,
             ⟨true, (checkLoop identifier now b entries st info).2.2⟩) := by
  intro entries
  induction entries with
  | nil => intro st info; rfl
  | cons en rest ih =>
    intro st info
    obtain ⟨w, ws, l⟩ := en
    have okbind : ∀ {α β : Type} (a : α) (f : α → Except String β),
        ((Except.ok a : Except String α) >>= f) = f a := fun _ _ => rfl
    by_cases hl : l = 0
    · subst hl
      rw [checkLoop_cons_zero]
      rw [show checkLoopE identifier now b ((w, ws, 0) :: rest) ⟨true, st⟩ info
        = checkLoopE identifier now b rest ⟨true, st⟩ info by rw [checkLoopE, if_pos rfl]]
      exact ih st info
    · rw [checkLoopE, if_neg hl]
      dsimp only
      set key := getKey identifier w with hkey
      set z := zremrangebyscore (st.sets key) (now - ws) with hzdef
      have h1 : rZremrangebyscore ⟨true, st⟩ key (now - ws) = .ok ⟨true, st.setZ key z⟩ := rfl
      have h2 : rZcard ⟨true, st.setZ key z⟩ key = .ok z.length := by
        simp [rZcard, zcard, setZ_sets_self]
      have h3 : rOldest ⟨true, st.setZ key z⟩ key = .ok (minScore z) := by
        simp [rOldest, setZ_sets_self]
      rw [h1, okbind, h2, okbind]
      by_cases hge : ((z.length : ℤ) ≥ l + b)
      · rw [if_pos hge, h3, okbind]
        rcases hm : minScore z with _ | m
        · have hz : z = [] := by
            by_contra hne
            obtain ⟨m', hm'⟩ := minScore_isSome hne
            rw [hm'] at hm
            exact Option.noConfusion hm
          rw [checkLoop_cons_emptyz _ _ _ _ _ _ _ _ _ hl (hzdef ▸ hz)]
          rw [hz, ih]
          rfl
        · rw [checkLoop_cons_deny _ _ _ _ _ _ _ _ _ m hl (by exact_mod_cast hge) hm]
          rfl
      · rw [if_neg hge, ih]
        rw [checkLoop_cons_pass _ _ _ _ _ _ _ _ _ hl (by push_neg at hge; exact_mod_cast hge)]

lemma recordLoopE_ok (identifier : String) (reqId : Member) (now : ℚ) :
    ∀ (entries : List (String × ℚ × ℤ)) (st : Store),
      recordLoopE identifier reqId now entries ⟨true, st⟩ =
        .ok ⟨true, recordLoop identifier reqId now entries st⟩ := by
  intro entries
  induction entries with
  | nil => intro st; rfl
  | cons en rest ih =>
    intro st
    obtain ⟨w, ws, l⟩ := en
    by_cases hl : 0 < l
    · rw [recordLoopE, if_pos hl, recordLoop_cons_pos _ _ _ _ _ _ _ _ hl]
      simp only [rZadd, rExpire, Bind.bind, Except.bind]
      exact ih _
    · rw [recordLoopE, if_neg hl, recordLoop_cons_nonpos _ _ _ _ _ _ _ _ hl]
      exact ih _

/-- On a healthy store the fallible embedding computes exactly the pure
`is_rate_limited` (decision, info, and final store). -/
lemma is_rate_limitedE_ok (st : Store) (identifier : String) (objId : ℕ) (limits : Limits)
    (burst : ℤ) (now : ℚ) :
    is_rate_limitedE ⟨true, st⟩ identifier objId limits burst now =
      .ok ((is_rate_limited st identifier objId limits burst now).1,
           (is_rate_limited st identifier objId limits burst now).2.1,
           ⟨true, (is_rate_limited st identifier objId limits burst now).2.2⟩) := by
  rw [is_rate_limitedE, is_rate_limited]
  simp only [checkLoopE_ok, Bind.bind, Except.bind]
  rcases hc : checkLoop identifier now burst (windowsOf limits) st initInfo with ⟨bb, info, st1⟩
  cases bb
  · simp only [recordLoopE_ok, Except.bind]
    rfl
  · rfl

lemma checkLoopE_fail (identifier : String) (now : ℚ) (b : ℤ) :
    ∀ (entries : List (String × ℚ × ℤ)) (st : Store) (info : LimitInfo),
      (∃ en ∈ entries, en.2.2 ≠ 0) →
      checkLoopE identifier now b entries ⟨false, st⟩ info = .error storeFailure := by
  intro entries
  induction entries with
  | nil => intro st info h; simp at h
  | cons en rest ih =>
    intro st info h
    obtain ⟨w, ws, l⟩ := en
    by_cases hl : l = 0
    · subst hl
      rw [checkLoopE, if_pos rfl]
      apply ih
      obtain ⟨f, hf, hfl⟩ := h
      rcases List.mem_cons.mp hf with rfl | hf
      · exact absurd rfl hfl
      · exact ⟨f, hf, hfl⟩
    · rw [checkLoopE, if_neg hl]
      simp [rZremrangebyscore, Bind.bind, Except.bind]

/-- With at least one configured window, an unreachable store makes
`is_rate_limited` raise: the store error propagates out unconverted. -/
lemma is_rate_limitedE_fail (st : Store) (identifier : String) (objId : ℕ) (limits : Limits)
    (burst : ℤ) (now : ℚ)
    (h : limits.per_minute ≠ 0 ∨ limits.per_hour ≠ 0 ∨ limits.per_day ≠ 0) :
    is_rate_limitedE ⟨false, st⟩ identifier objId limits burst now = .error storeFailure := by
  rw [is_rate_limitedE]
  have hfail := checkLoopE_fail identifier now burst (windowsOf limits) st initInfo ?_
  · simp only [hfail, Bind.bind, Except.bind]
  · rcases h with h | h | h
    · exact ⟨("minute", 60, limits.per_minute), by simp [windowsOf], h⟩
    · exact ⟨("hour", 3600, limits.per_hour), by simp [windowsOf], h⟩
    · exact ⟨("day", 86400, limits.per_day), by simp [windowsOf], h⟩

/-! ### Header bookkeeping -/

lemma find_map_set (k v : String) :
    ∀ hs : List (String × String),
      (hs.map (fun p => if p.1 = k then (k, v) else p)).find? (fun p => decide (p.1 = k))
        = if hs.any (fun p => p.1 = k) then some (k, v)
          else none := by
  intro hs
  induction hs with
  | nil => rfl
  | cons p rest ih =>
    rw [List.map_cons, List.find?]
    by_cases hp : p.1 = k
    · rw [if_pos hp]
      rw [show (decide ((k, v).1 = k)) = true by simp]
      have : (p :: rest).any (fun q => decide (q.1 = k)) = true := by simp [List.any_cons, hp]
      rw [this, if_pos rfl]
    · rw [if_neg hp]
      rw [show (decide (p.1 = k)) = false by simp [hp]]
      rw [ih]
      have : (p :: rest).any (fun q => decide (q.1 = k))
          = rest.any (fun q => decide (q.1 = k)) := by
        simp [List.any_cons, hp]
      rw [this]

lemma headerGet_setHeader_self (k v : String) (hs : List (String × String)) :
    headerGet (setHeader hs k v) k = some v := by
  rw [setHeader, headerGet]
  split
  · rename_i hany
    rw [find_map_set, if_pos hany]
    rfl
  · rename_i hany
    induction hs with
    | nil => simp [List.find?]
    | cons p rest ih =>
      rw [List.cons_append, List.find?]
      have hp : decide (p.1 = k) = false := by
        by_contra hc
        apply hany
        simp only [Bool.not_eq_false] at hc
        simp [List.any_cons, of_decide_eq_true hc]
      rw [hp]
      apply ih
      intro hc
      apply hany
      rw [List.any_cons, hc, Bool.or_true]

lemma find_map_ne (k v k' : String) (hkk : k' ≠ k) :
    ∀ hs : List (String × String),
      (hs.map (fun p => if p.1 = k then (k, v) else p)).find? (fun p => decide (p.1 = k'))
        = hs.find? (fun p => decide (p.1 = k')) := by
  intro hs
  induction hs with
  | nil => rfl
  | cons p rest ih =>
    rw [List.map_cons, List.find?_cons, List.find?_cons]
    by_cases hp : p.1 = k
    · rw [if_pos hp]
      rw [show (decide ((k, v).1 = k')) = false from decide_eq_false (fun hc => hkk hc.symm)]
      rw [show (decide (p.1 = k')) = false from decide_eq_false (fun hc => hkk (hc ▸ hp))]
      exact ih
    · rw [if_neg hp]
      rcases hpk : decide (p.1 = k') with _ | _
      · exact ih
      · rfl

lemma find_append_ne (k v k' : String) (hkk : k' ≠ k) :
    ∀ hs : List (String × String),
      (hs ++ [(k, v)]).find? (fun p => decide (p.1 = k'))
        = hs.find? (fun p => decide (p.1 = k')) := by
  intro hs
  induction hs with
  | nil =>
    rw [List.nil_append, List.find?_cons]
    rw [show (decide ((k, v).1 = k')) = false from decide_eq_false (fun hc => hkk hc.symm)]
  | cons p rest ih =>
    rw [List.cons_append, List.find?_cons, List.find?_cons]
    rcases hpk : decide (p.1 = k') with _ | _
    · exact ih
    · rfl

lemma headerGet_setHeader_ne (k v k' : String) (hkk : k' ≠ k) (hs : List (String × String)) :
    headerGet (setHeader hs k v) k' = headerGet hs k' := by
  rw [setHeader, headerGet, headerGet]
  split
  · rw [find_map_ne k v k' hkk]
  · rw [find_append_ne k v k' hkk]

/-! ### Projections of `is_rate_limited` onto the check loop -/

lemma minScore_eq_none {z : ZSet} (h : minScore z = none) : z = [] := by
  by_contra hne
  obtain ⟨m, hm⟩ := minScore_isSome hne
  rw [hm] at h
  exact Option.noConfusion h

lemma pairwise_const {α : Type} {R : α → α → Prop} (h : ∀ a b, R a b) :
    ∀ l : List α, l.Pairwise R := by
  intro l
  induction l with
  | nil => exact List.Pairwise.nil
  | cons a t ih => exact List.Pairwise.cons (fun c _ => h a c) ih

lemma is_rate_limited_fst (st : Store) (identifier : String) (o : ℕ) (lims : Limits) (b : ℤ)
    (now : ℚ) :
    (is_rate_limited st identifier o lims b now).1
      = (checkLoop identifier now b (windowsOf lims) st initInfo).1 := by
  rw [is_rate_limited]
  rcases checkLoop identifier now b (windowsOf lims) st initInfo with ⟨bb, i2, s2⟩
  cases bb <;> rfl

lemma is_rate_limited_info (st : Store) (identifier : String) (o : ℕ) (lims : Limits) (b : ℤ)
    (now : ℚ) :
    (is_rate_limited st identifier o lims b now).2.1
      = (checkLoop identifier now b (windowsOf lims) st initInfo).2.1 := by
  rw [is_rate_limited]
  rcases checkLoop identifier now b (windowsOf lims) st initInfo with ⟨bb, i2, s2⟩
  cases bb <;> rfl

lemma is_rate_limited_store_limited (st : Store) (identifier : String) (o : ℕ) (lims : Limits)
    (b : ℤ) (now : ℚ)
    (h : (checkLoop identifier now b (windowsOf lims) st initInfo).1 = true) :
    (is_rate_limited st identifier o lims b now).2.2
      = (checkLoop identifier now b (windowsOf lims) st initInfo).2.2 := by
  rw [is_rate_limited]
  rcases hc : checkLoop identifier now b (windowsOf lims) st initInfo with ⟨bb, i2, s2⟩
  rw [hc] at h
  cases bb
  · exact absurd h (by simp)
  · rfl

lemma is_rate_limited_store_admitted (st : Store) (identifier : String) (o : ℕ) (lims : Limits)
    (b : ℤ) (now : ℚ)
    (h : (checkLoop identifier now b (windowsOf lims) st initInfo).1 = false) :
    (is_rate_limited st identifier o lims b now).2.2
      = recordLoop identifier (now, o) now (windowsOf lims)
          (checkLoop identifier now b (windowsOf lims) st initInfo).2.2 := by
  rw [is_rate_limited]
  rcases hc : checkLoop identifier now b (windowsOf lims) st initInfo with ⟨bb, i2, s2⟩
  rw [hc] at h
  cases bb
  · rfl
  · exact absurd h (by simp)

/-! ### A denial returns before the later windows are examined -/

lemma checkLoop_tail_not_minute (identifier : String) (now : ℚ) (b : ℤ) (lims : Limits) :
    ∀ (st' : Store) (info' : LimitInfo),
      (checkLoop identifier now b
          [("hour", (3600 : ℚ), lims.per_hour), ("day", (86400 : ℚ), lims.per_day)]
          st' info').1 = true →
      (checkLoop identifier now b
          [("hour", (3600 : ℚ), lims.per_hour), ("day", (86400 : ℚ), lims.per_day)]
          st' info').2.1.window ≠ "minute" := by
  intro st' info' h hw
  obtain ⟨en, hen, _, henw⟩ := checkLoop_limited_window identifier now b _ st' info' h
  rw [hw] at henw
  have : en.1 = "hour" ∨ en.1 = "day" := by
    rcases List.mem_cons.mp hen with rfl | hen
    · exact Or.inl rfl
    · rcases List.mem_cons.mp hen with rfl | hen
      · exact Or.inr rfl
      · simp at hen
  rcases this with he | he <;> rw [he] at henw <;> exact absurd henw.symm (by decide)

/-- If the check loop denies with `window = "minute"`, it returned during the
minute step: the hour and day keys are left untouched. -/
lemma checkLoop_deny_minute_frame (identifier : String) (now : ℚ) (b : ℤ) (lims : Limits)
    (st : Store)
    (h : (checkLoop identifier now b (windowsOf lims) st initInfo).1 = true)
    (hw : (checkLoop identifier now b (windowsOf lims) st initInfo).2.1.window = "minute") :
    (checkLoop identifier now b (windowsOf lims) st initInfo).2.2.sets
        (getKey identifier "hour") = st.sets (getKey identifier "hour")
    ∧ (checkLoop identifier now b (windowsOf lims) st initInfo).2.2.sets
        (getKey identifier "day") = st.sets (getKey identifier "day") := by
  have hwin : windowsOf lims = ("minute", (60 : ℚ), lims.per_minute) ::
      [("hour", (3600 : ℚ), lims.per_hour), ("day", (86400 : ℚ), lims.per_day)] := rfl
  by_cases hpm : lims.per_minute = 0
  · exfalso
    rw [hwin, hpm, checkLoop_cons_zero] at h hw
    exact checkLoop_tail_not_minute identifier now b lims st initInfo h hw
  · set z := zremrangebyscore (st.sets (getKey identifier "minute")) (now - 60) with hz
    by_cases hge : lims.per_minute + b ≤ (z.length : ℤ)
    · rcases hms : minScore z with _ | m
      · exfalso
        have hzn : z = [] := minScore_eq_none hms
        rw [hwin, checkLoop_cons_emptyz _ _ _ _ _ _ _ _ _ hpm (by rw [← hz, hzn])] at h hw
        exact checkLoop_tail_not_minute identifier now b lims _ _ h hw
      · rw [hwin, checkLoop_cons_deny _ _ _ _ _ _ _ _ _ m hpm (by rw [← hz]; exact hge)
          (by rw [← hz]; exact hms)]
        dsimp only
        constructor
        · exact setZ_sets_ne _ _ _ _ (fun hc => key_minute_ne_hour identifier hc.symm)
        · exact setZ_sets_ne _ _ _ _ (fun hc => key_minute_ne_day identifier hc.symm)
    · exfalso
      push_neg at hge
      rw [hwin, checkLoop_cons_pass _ _ _ _ _ _ _ _ _ hpm (by rw [← hz]; exact hge)] at h hw
      exact checkLoop_tail_not_minute identifier now b lims _ _ h hw

lemma checkLoop_day_not_hour (identifier : String) (now : ℚ) (b : ℤ) (lims : Limits) :
    ∀ (st' : Store) (info' : LimitInfo),
      (checkLoop identifier now b [("day", (86400 : ℚ), lims.per_day)] st' info').1 = true →
      (checkLoop identifier now b [("day", (86400 : ℚ), lims.per_day)] st' info').2.1.window
        ≠ "hour" := by
  intro st' info' h hw
  obtain ⟨en, hen, _, henw⟩ := checkLoop_limited_window identifier now b _ st' info' h
  rw [hw] at henw
  have : en.1 = "day" := by
    rcases List.mem_cons.mp hen with rfl | hen
    · rfl
    · simp at hen
  rw [this] at henw
  exact absurd henw.symm (by decide)

/-- If the check loop over the hour-day tail denies with `window = "hour"`, the
day key is left untouched. -/
lemma checkLoop_hd_deny_hour_frame (identifier : String) (now : ℚ) (b : ℤ) (lims : Limits) :
    ∀ (st' : Store) (info' : LimitInfo),
      (checkLoop identifier now b
          [("hour", (3600 : ℚ), lims.per_hour), ("day", (86400 : ℚ), lims.per_day)]
          st' info').1 = true →
      (checkLoop identifier now b
          [("hour", (3600 : ℚ), lims.per_hour), ("day", (86400 : ℚ), lims.per_day)]
          st' info').2.1.window = "hour" →
      (checkLoop identifier now b
          [("hour", (3600 : ℚ), lims.per_hour), ("day", (86400 : ℚ), lims.per_day)]
          st' info').2.2.sets (getKey identifier "day") = st'.sets (getKey identifier "day") := by
  intro st' info' h hw
  by_cases hph : lims.per_hour = 0
  · exfalso
    rw [hph, checkLoop_cons_zero] at h hw
    exact checkLoop_day_not_hour identifier now b lims st' info' h hw
  · set z := zremrangebyscore (st'.sets (getKey identifier "hour")) (now - 3600) with hz
    by_cases hge : lims.per_hour + b ≤ (z.length : ℤ)
    · rcases hms : minScore z with _ | m
      · exfalso
        have hzn : z = [] := minScore_eq_none hms
        rw [checkLoop_cons_emptyz _ _ _ _ _ _ _ _ _ hph (by rw [← hz, hzn])] at h hw
        exact checkLoop_day_not_hour identifier now b lims _ _ h hw
      · rw [checkLoop_cons_deny _ _ _ _ _ _ _ _ _ m hph (by rw [← hz]; exact hge)
          (by rw [← hz]; exact hms)]
        dsimp only
        exact setZ_sets_ne _ _ _ _ (fun hc => key_hour_ne_day identifier hc.symm)
    · exfalso
      push_neg at hge
      rw [checkLoop_cons_pass _ _ _ _ _ _ _ _ _ hph (by rw [← hz]; exact hge)] at h hw
      exact checkLoop_day_not_hour identifier now b lims _ _ h hw

/-- If the full check loop denies with `window = "hour"`, the day key is left
untouched. -/
lemma checkLoop_deny_hour_frame (identifier : String) (now : ℚ) (b : ℤ) (lims : Limits)
    (st : Store)
    (h : (checkLoop identifier now b (windowsOf lims) st initInfo).1 = true)
    (hw : (checkLoop identifier now b (windowsOf lims) st initInfo).2.1.window = "hour") :
    (checkLoop identifier now b (windowsOf lims) st initInfo).2.2.sets
        (getKey identifier "day") = st.sets (getKey identifier "day") := by
  have hwin : windowsOf lims = ("minute", (60 : ℚ), lims.per_minute) ::
      [("hour", (3600 : ℚ), lims.per_hour), ("day", (86400 : ℚ), lims.per_day)] := rfl
  by_cases hpm : lims.per_minute = 0
  · rw [hwin, hpm, checkLoop_cons_zero] at h hw ⊢
    exact checkLoop_hd_deny_hour_frame identifier now b lims st initInfo h hw
  · set z := zremrangebyscore (st.sets (getKey identifier "minute")) (now - 60) with hz
    by_cases hge : lims.per_minute + b ≤ (z.length : ℤ)
    · rcases hms : minScore z with _ | m
      · have hzn : z = [] := minScore_eq_none hms
        rw [hwin, checkLoop_cons_emptyz _ _ _ _ _ _ _ _ _ hpm (by rw [← hz, hzn])] at h hw ⊢
        rw [checkLoop_hd_deny_hour_frame identifier now b lims _ _ h hw]
        exact setZ_sets_ne _ _ _ _ (fun hc => key_minute_ne_day identifier hc.symm)
      · exfalso
        rw [hwin, checkLoop_cons_deny _ _ _ _ _ _ _ _ _ m hpm (by rw [← hz]; exact hge)
          (by rw [← hz]; exact hms)] at hw
        simp only [denyInfo] at hw
        exact absurd hw (by decide)
    · push_neg at hge
      rw [hwin, checkLoop_cons_pass _ _ _ _ _ _ _ _ _ hpm (by rw [← hz]; exact hge)] at h hw ⊢
      rw [checkLoop_hd_deny_hour_frame identifier now b lims _ _ h hw]
      exact setZ_sets_ne _ _ _ _ (fun hc => key_minute_ne_day identifier hc.symm)

lemma runCalls_singleton (identifier : String) (limits : Limits) (b : ℤ) (c : ℚ × ℕ)
    (st : Store) :
    runCalls identifier limits b [c] st
      = ((is_rate_limited st identifier c.2 limits b c.1).2.2,
         [((is_rate_limited st identifier c.2 limits b c.1).1,
           (is_rate_limited st identifier c.2 limits b c.1).2.1)]) := by
  obtain ⟨t, o⟩ := c
  rfl

/-- A run of `L + B + 1` fresh in-window calls against a single configured
window: the first `L + B` are admitted (window tag empty), the last is denied
with the active window's name. -/
lemma run_cap_full (i : ℕ) (L B : ℕ) (hL : 0 < L) (identifier : String)
    (calls : List (ℚ × ℕ)) (hlen : calls.length = L + B + 1) (hnd : calls.Nodup)
    (hwin : List.Pairwise (fun a c => c.1 - a.1 < winDur i) calls) :
    (runCalls identifier (singleLimits i (L : ℤ)) (B : ℤ) calls Store.empty).2.map Prod.fst
        = List.replicate (L + B) false ++ [true]
    ∧ (runCalls identifier (singleLimits i (L : ℤ)) (B : ℤ) calls Store.empty).2.map
          (fun r => r.2.window)
        = List.replicate (L + B) "" ++ [winName i] := by
  have hne : calls ≠ [] := by
    intro hc
    rw [hc] at hlen
    simp at hlen
  set cs := calls.dropLast with hcsdef
  set c := calls.getLast hne with hcdef
  have hsplit : calls = cs ++ [c] := (List.dropLast_append_getLast hne).symm
  have hcs : cs.length = L + B := by
    have h1 : calls.length = cs.length + 1 := by
      rw [hsplit]
      simp
    omega
  have hLZ : (0 : ℤ) < (L : ℤ) := by exact_mod_cast hL
  have hBZ : (0 : ℤ) ≤ (B : ℤ) := Int.natCast_nonneg B
  rw [hsplit] at hnd hwin ⊢
  obtain ⟨h1, h2, h3⟩ := run_single_admits i (L : ℤ) (B : ℤ) hLZ hBZ identifier cs [] Store.empty
      rfl
      (by simpa using (List.nodup_append.mp hnd).1)
      (by simpa using (List.pairwise_append.mp hwin).1)
      (by simp only [List.length_nil, hcs]; push_cast; omega)
  have hd := run_single_denied i (L : ℤ) (B : ℤ) hLZ hBZ identifier
      (runCalls identifier (singleLimits i (L : ℤ)) (B : ℤ) cs Store.empty).1 cs c
      (by simpa using h3)
      (fun p hp => (List.pairwise_append.mp hwin).2.2 p hp c (by simp))
      (by rw [hcs]; push_cast; omega)
  rw [runCalls_append, runCalls_singleton]
  constructor
  · rw [List.map_append, h1, hcs, List.map_cons, List.map_nil, hd.1]
  · rw [List.map_append, h2, hcs, List.map_cons, List.map_nil, hd.2.1]

/-- Claim C2: for an identifier with no prior traffic, a single configured
window of limit `L > 0` and burst allowance `B`, any sequence of `L + B + 1`
distinct calls falling within one window span is admitted exactly `L + B`
times and the `(L + B + 1)`-th call is denied; in particular with `B = 0`
exactly `L` admissions precede the first denial. -/
theorem c2_single_window_cap (i : ℕ) (L B : ℕ) (hL : 0 < L) (identifier : String)
    (calls : List (ℚ × ℕ)) (hlen : calls.length = L + B + 1) (hnd : calls.Nodup)
    (hwin : List.Pairwise (fun a c => c.1 - a.1 < winDur i) calls) :
    (runCalls identifier (singleLimits i (L : ℤ)) (B : ℤ) calls Store.empty).2.map Prod.fst
      = List.replicate (L + B) false ++ [true] :=
  (run_cap_full i L B hL identifier calls hlen hnd hwin).1

/-- Witness for C2: minute window, limit 2, burst 1: four calls at seconds
0, 1, 2, 3 — three admissions then a denial. -/
theorem c2_single_window_cap_witness :
    (runCalls "ip:10.0.0.7" (singleLimits 0 (2 : ℤ)) (1 : ℤ) [(0, 0), (1, 1), (2, 2), (3, 3)]
        Store.empty).2.map Prod.fst = List.replicate 3 false ++ [true] :=
  c2_single_window_cap 0 2 1 (by norm_num) "ip:10.0.0.7" [(0, 0), (1, 1), (2, 2), (3, 3)] rfl
    (by decide) (by norm_num [List.pairwise_cons, winDur])

/-- Claim C5: sliding-window property.  After `L > 0` admitted requests at
time `T` exhaust a single configured window of duration `D = winDur i`,
a request evaluated at `T + D + ε` with `ε > 0` is admitted, because the
evaluation trims all markers older than `now - D` before counting. -/
theorem c5_sliding_window (i : ℕ) (L : ℕ) (hL : 0 < L) (T ε : ℚ) (hε : 0 < ε)
    (identifier : String) :
    ((runCalls identifier (singleLimits i (L : ℤ)) 0
          ((List.range L).map (fun k => (T, k))) Store.empty).2.map Prod.fst
        = List.replicate L false)
    ∧ (is_rate_limited
          (runCalls identifier (singleLimits i (L : ℤ)) 0
            ((List.range L).map (fun k => (T, k))) Store.empty).1
          identifier L (singleLimits i (L : ℤ)) 0 (T + winDur i + ε)).1 = false := by
  have hLZ : (0 : ℤ) < (L : ℤ) := by exact_mod_cast hL
  set calls : List (ℚ × ℕ) := (List.range L).map (fun k => (T, k)) with hcalls
  have hnd : calls.Nodup := by
    rw [hcalls]
    exact List.Nodup.map (fun a b h => by simpa using h) (List.nodup_range L)
  have hpw : List.Pairwise (fun a c => c.1 - a.1 < winDur i) calls := by
    rw [hcalls]
    rw [List.pairwise_map]
    exact pairwise_const (fun a b => by simpa using winDur_pos i) _
  obtain ⟨h1, h2, h3⟩ := run_single_admits i (L : ℤ) 0 hLZ le_rfl identifier calls [] Store.empty
      rfl (by simpa using hnd) (by simpa using hpw)
      (by rw [hcalls]; simp)
  refine ⟨by rw [h1, hcalls]; simp, ?_⟩
  have hz : singleZ (runCalls identifier (singleLimits i (L : ℤ)) 0 calls Store.empty).1
      identifier i (T + winDur i + ε) = [] := by
    rw [singleZ]
    rw [show ((runCalls identifier (singleLimits i (L : ℤ)) 0 calls Store.empty).1.sets
        (getKey identifier (winName i))) = entriesOf calls from by simpa using h3]
    apply zrem_eq_nil
    intro e he
    obtain ⟨p, hp, rfl⟩ := List.mem_map.mp he
    obtain ⟨k, _, rfl⟩ := List.mem_map.mp (hcalls ▸ hp)
    dsimp only
    linarith
  rw [single_step i (L : ℤ) 0 hLZ le_rfl _ identifier L (T + winDur i + ε), if_neg]
  rw [hz]
  simp only [List.length_nil, Nat.cast_zero]
  omega

/-- Witness for C5: day window, limit 2, two requests at T = 5 exhaust it and
a request at T + 86400 + 1/2 is admitted. -/
theorem c5_sliding_window_witness :
    ((runCalls "user:42" (singleLimits 2 (2 : ℤ)) 0
          ((List.range 2).map (fun k => ((5 : ℚ), k))) Store.empty).2.map Prod.fst
        = List.replicate 2 false)
    ∧ (is_rate_limited
          (runCalls "user:42" (singleLimits 2 (2 : ℤ)) 0
            ((List.range 2).map (fun k => ((5 : ℚ), k))) Store.empty).1
          "user:42" 2 (singleLimits 2 (2 : ℤ)) 0 (5 + winDur 2 + 1/2)).1 = false :=
  c5_sliding_window 2 2 (by norm_num) 5 (1/2) (by norm_num) "user:42"

lemma mem_windowsOf {lims : Limits} {en : String × ℚ × ℤ} (h : en ∈ windowsOf lims) :
    en = ("minute", (60 : ℚ), lims.per_minute) ∨ en = ("hour", (3600 : ℚ), lims.per_hour)
      ∨ en = ("day", (86400 : ℚ), lims.per_day) := by
  simpa [windowsOf] using h

/-- Claim C8: a window with configured limit 0 is skipped entirely — its key
is never trimmed, recorded, or expired, and it is never the window that causes
a denial.  Concretely, with limits `{per_minute := 0, per_hour := 5}` and
burst 0, any six distinct requests within an hour see the first five admitted
(regardless of their rate) and the sixth denied on the hour window. -/
theorem c8_zero_limit_skipped :
    (∀ (st : Store) (identifier : String) (o : ℕ) (lims : Limits) (b : ℤ) (now : ℚ)
        (w : String), w ∈ ["minute", "hour", "day"] → limitFor lims w = 0 →
      ((is_rate_limited st identifier o lims b now).2.2.sets (getKey identifier w)
          = st.sets (getKey identifier w))
      ∧ ((is_rate_limited st identifier o lims b now).2.2.ttl (getKey identifier w)
          = st.ttl (getKey identifier w))
      ∧ ((is_rate_limited st identifier o lims b now).1 = true →
          (is_rate_limited st identifier o lims b now).2.1.window ≠ w))
    ∧ (∀ (identifier : String) (calls : List (ℚ × ℕ)),
        calls.length = 6 → calls.Nodup →
        List.Pairwise (fun a c => c.1 - a.1 < 3600) calls →
        (runCalls identifier ⟨0, 5, 0⟩ 0 calls Store.empty).2.map Prod.fst
            = List.replicate 5 false ++ [true]
        ∧ (runCalls identifier ⟨0, 5, 0⟩ 0 calls Store.empty).2.map (fun r => r.2.window)
            = List.replicate 5 "" ++ ["hour"]) := by
  constructor
  · intro st identifier o lims b now w hmem h0
    have hwm : w = "minute" ∨ w = "hour" ∨ w = "day" := by simpa using hmem
    have hkey : ∀ en ∈ windowsOf lims, en.2.2 ≠ 0 → getKey identifier en.1 ≠ getKey identifier w := by
      intro en hen henl
      rcases mem_windowsOf hen with rfl | rfl | rfl <;> rcases hwm with rfl | rfl | rfl
      · exact absurd (by simpa [limitFor] using h0) henl
      · exact key_minute_ne_hour identifier
      · exact key_minute_ne_day identifier
      · exact fun hc => key_minute_ne_hour identifier hc.symm
      · exact absurd (by simpa [limitFor] using h0) henl
      · exact key_hour_ne_day identifier
      · exact fun hc => key_minute_ne_day identifier hc.symm
      · exact fun hc => key_hour_ne_day identifier hc.symm
      · exact absurd (by simpa [limitFor] using h0) henl
    have hname : ∀ en ∈ windowsOf lims, en.2.2 ≠ 0 → en.1 ≠ w := by
      intro en hen henl
      rcases mem_windowsOf hen with rfl | rfl | rfl <;> rcases hwm with rfl | rfl | rfl
      · exact absurd (by simpa [limitFor] using h0) henl
      · exact by simp
      · exact by simp
      · exact by simp
      · exact absurd (by simpa [limitFor] using h0) henl
      · exact by simp
      · exact by simp
      · exact by simp
      · exact absurd (by simpa [limitFor] using h0) henl
    have hrec : ∀ en ∈ windowsOf lims, 0 < en.2.2 → getKey identifier en.1 ≠ getKey identifier w :=
      fun en hen henl => hkey en hen (ne_of_gt henl)
    have hframe := checkLoop_sets_frame identifier now b (windowsOf lims) st initInfo
      (getKey identifier w) hkey
    refine ⟨?_, ?_, ?_⟩
    · cases hlim : (checkLoop identifier now b (windowsOf lims) st initInfo).1
      · rw [is_rate_limited_store_admitted st identifier o lims b now hlim]
        rw [(recordLoop_frame identifier (now, o) now (windowsOf lims) _ _ hrec).1, hframe]
      · rw [is_rate_limited_store_limited st identifier o lims b now hlim]
        exact hframe
    · cases hlim : (checkLoop identifier now b (windowsOf lims) st initInfo).1
      · rw [is_rate_limited_store_admitted st identifier o lims b now hlim]
        rw [(recordLoop_frame identifier (now, o) now (windowsOf lims) _ _ hrec).2]
        rw [checkLoop_ttl]
      · rw [is_rate_limited_store_limited st identifier o lims b now hlim]
        rw [checkLoop_ttl]
    · intro hlim
      rw [is_rate_limited_fst] at hlim
      obtain ⟨en, hen, henl, henw⟩ := checkLoop_limited_window identifier now b
        (windowsOf lims) st initInfo hlim
      rw [is_rate_limited_info, henw]
      exact hname en hen henl
  · intro identifier calls hlen hnd hpw
    have h := run_cap_full 1 5 0 (by norm_num) identifier calls (by simpa using hlen) hnd
      (by simpa [winDur] using hpw)
    exact ⟨h.1, h.2⟩

/-- Witness for C8: the minute window of `{per_minute := 0, per_hour := 5}` is
untouched by an evaluation, and the six-request scenario at seconds
0..5 admits five and denies the sixth on the hour window. -/
theorem c8_zero_limit_skipped_witness :
    ((is_rate_limited Store.empty "client" 0 ⟨0, 5, 0⟩ 0 0).2.2.sets (getKey "client" "minute")
        = Store.empty.sets (getKey "client" "minute"))
    ∧ (runCalls "client" ⟨0, 5, 0⟩ 0 [(0, 0), (1, 1), (2, 2), (3, 3), (4, 4), (5, 5)]
          Store.empty).2.map Prod.fst = List.replicate 5 false ++ [true]
    ∧ (runCalls "client" ⟨0, 5, 0⟩ 0 [(0, 0), (1, 1), (2, 2), (3, 3), (4, 4), (5, 5)]
          Store.empty).2.map (fun r => r.2.window) = List.replicate 5 "" ++ ["hour"] := by
  have h := c8_zero_limit_skipped
  have h2 := h.2 "client" [(0, 0), (1, 1), (2, 2), (3, 3), (4, 4), (5, 5)] rfl (by decide)
    (by norm_num [List.pairwise_cons])
  exact ⟨(h.1 Store.empty "client" 0 ⟨0, 5, 0⟩ 0 0 "minute" (by decide) (by decide)).1,
    h2.1, h2.2⟩

/-- One `is_rate_limited` evaluation with minute and hour windows configured
(day disabled): the minute window is evaluated first and is authoritative; the
hour window is examined only if the minute window admits. -/
lemma double_step (pm ph b : ℤ) (hpm : 0 < pm) (hph : 0 < ph) (hb : 0 ≤ b)
    (st : Store) (identifier : String) (o : ℕ) (now : ℚ) :
    is_rate_limited st identifier o ⟨pm, ph, 0⟩ b now =
      if pm + b ≤ ((zremrangebyscore (st.sets (getKey identifier "minute"))
          (now - 60)).length : ℤ) then
        (true,
         denyInfo "minute" 60 pm
           ((minScore (zremrangebyscore (st.sets (getKey identifier "minute"))
             (now - 60))).getD 0) now,
         st.setZ (getKey identifier "minute")
           (zremrangebyscore (st.sets (getKey identifier "minute")) (now - 60)))
      else if ph + b ≤ ((zremrangebyscore (st.sets (getKey identifier "hour"))
          (now - 3600)).length : ℤ) then
        (true,
         denyInfo "hour" 3600 ph
           ((minScore (zremrangebyscore (st.sets (getKey identifier "hour"))
             (now - 3600))).getD 0) now,
         (st.setZ (getKey identifier "minute")
             (zremrangebyscore (st.sets (getKey identifier "minute")) (now - 60))).setZ
           (getKey identifier "hour")
           (zremrangebyscore (st.sets (getKey identifier "hour")) (now - 3600)))
      else
        (false,
         updateHeader "minute" 60 pm
           (zremrangebyscore (st.sets (getKey identifier "minute")) (now - 60)).length now
           initInfo,
         recordLoop identifier (now, o) now (windowsOf ⟨pm, ph, 0⟩)
           ((st.setZ (getKey identifier "minute")
               (zremrangebyscore (st.sets (getKey identifier "minute")) (now - 60))).setZ
             (getKey identifier "hour")
             (zremrangebyscore (st.sets (getKey identifier "hour")) (now - 3600)))) := by
  have hwin : windowsOf ⟨pm, ph, 0⟩ = ("minute", (60 : ℚ), pm) ::
      [("hour", (3600 : ℚ), ph), ("day", (86400 : ℚ), (0 : ℤ))] := rfl
  set zM := zremrangebyscore (st.sets (getKey identifier "minute")) (now - 60) with hzM
  set zH := zremrangebyscore (st.sets (getKey identifier "hour")) (now - 3600) with hzH
  have hsets : (st.setZ (getKey identifier "minute") zM).sets (getKey identifier "hour")
      = st.sets (getKey identifier "hour") :=
    setZ_sets_ne _ _ _ _ (fun hc => key_minute_ne_hour identifier hc.symm)
  by_cases hgeM : pm + b ≤ (zM.length : ℤ)
  · have hzne : zM ≠ [] := by
      intro hc
      rw [hc] at hgeM
      simp at hgeM
      omega
    obtain ⟨m, hm⟩ := minScore_isSome hzne
    rw [if_pos hgeM, hm, is_rate_limited, hwin,
      checkLoop_cons_deny _ _ _ _ _ _ _ _ _ m (by omega : pm ≠ 0) hgeM hm]
    rfl
  · rw [if_neg hgeM]
    push_neg at hgeM
    by_cases hgeH : ph + b ≤ (zH.length : ℤ)
    · have hzne : zH ≠ [] := by
        intro hc
        rw [hc] at hgeH
        simp at hgeH
        omega
      obtain ⟨m, hm⟩ := minScore_isSome hzne
      have hge' : ph + b ≤
          ((zremrangebyscore ((st.setZ (getKey identifier "minute") zM).sets
            (getKey identifier "hour")) (now - 3600)).length : ℤ) := by
        rw [hsets, ← hzH]
        exact hgeH
      have hm' : minScore (zremrangebyscore ((st.setZ (getKey identifier "minute") zM).sets
          (getKey identifier "hour")) (now - 3600)) = some m := by
        rw [hsets, ← hzH]
        exact hm
      rw [if_pos hgeH, hm, is_rate_limited, hwin,
        checkLoop_cons_pass _ _ _ _ _ _ _ _ _ (by omega : pm ≠ 0) hgeM,
        checkLoop_cons_deny _ _ _ _ _ _ _ _ _ m (by omega : ph ≠ 0) hge' hm']
      dsimp only
      rw [hsets]
      rfl
    · rw [if_neg hgeH]
      have hlt' : ((zremrangebyscore ((st.setZ (getKey identifier "minute") zM).sets
          (getKey identifier "hour")) (now - 3600)).length : ℤ) < ph + b := by
        rw [hsets, ← hzH]
        push_neg at hgeH
        exact hgeH
      rw [is_rate_limited, hwin,
        checkLoop_cons_pass _ _ _ _ _ _ _ _ _ (by omega : pm ≠ 0) hgeM,
        checkLoop_cons_pass _ _ _ _ _ _ _ _ _ (by omega : ph ≠ 0) hlt',
        checkLoop_cons_zero, checkLoop_nil_eq]
      dsimp only
      rw [hsets]
      rw [show updateHeader "hour" 3600 ph
          (zremrangebyscore (st.sets (getKey identifier "hour")) (now - 3600)).length now
          (updateHeader "minute" 60 pm zM.length now initInfo)
        = updateHeader "minute" 60 pm zM.length now initInfo from by
          rw [updateHeader]
          exact if_neg (by decide)]

/-- Claim C4: windows are evaluated minute, hour, day, and the first violated
window is authoritative.  With minute-limit 2 and hour-limit 100 (burst 0) the
third request in the same minute is denied reporting window "minute", its
limit 2 and remaining 0; and whenever a denial reports the minute window, the
hour and day keys were never evaluated (their store state is untouched). -/
theorem c4_minute_first_authoritative :
    ((runCalls "client" ⟨2, 100, 0⟩ 0 [(0, 0), (1, 1), (2, 2)] Store.empty).2.map
        (fun r => (r.1, r.2.window, r.2.limit, r.2.remaining))
      = [(false, "", 2, 2), (false, "", 2, 1), (true, "minute", 2, 0)])
    ∧ (∀ (st : Store) (identifier : String) (o : ℕ) (lims : Limits) (b : ℤ) (now : ℚ),
        (is_rate_limited st identifier o lims b now).1 = true →
        (is_rate_limited st identifier o lims b now).2.1.window = "minute" →
        (is_rate_limited st identifier o lims b now).2.2.sets (getKey identifier "hour")
            = st.sets (getKey identifier "hour")
        ∧ (is_rate_limited st identifier o lims b now).2.2.sets (getKey identifier "day")
            = st.sets (getKey identifier "day")) := by
  constructor
  · simp [runCalls,
      double_step 2 100 0 (by norm_num) (by norm_num) (by norm_num),
      recordLoop_cons_pos, recordLoop_cons_nonpos, recordLoop_nil_eq, windowsOf,
      Store.setZ, Store.setTtl, Store.empty, zadd, zremrangebyscore, zcard, minScore,
      updateHeader, denyInfo, initInfo, List.filter_cons, List.any_cons,
      show getKey "client" "minute" = "ratelimit:client:minute" from rfl,
      show getKey "client" "hour" = "ratelimit:client:hour" from rfl,
      show getKey "client" "day" = "ratelimit:client:day" from rfl,
      show ((0 : ℚ) - 60) = -60 from by norm_num,
      show ((1 : ℚ) - 60) = -59 from by norm_num,
      show ((2 : ℚ) - 60) = -58 from by norm_num,
      show ((0 : ℚ) - 3600) = -3600 from by norm_num,
      show ((1 : ℚ) - 3600) = -3599 from by norm_num,
      show ((2 : ℚ) - 3600) = -3598 from by norm_num,
      show min (0 : ℚ) 1 = 0 from by norm_num,
      show ((-60 : ℚ) < 0) from by norm_num, show ((-60 : ℚ) < 1) from by norm_num,
      show ((-59 : ℚ) < 0) from by norm_num, show ((-59 : ℚ) < 1) from by norm_num,
      show ((-58 : ℚ) < 0) from by norm_num, show ((-58 : ℚ) < 1) from by norm_num,
      show ((-3600 : ℚ) < 0) from by norm_num, show ((-3600 : ℚ) < 1) from by norm_num,
      show ((-3599 : ℚ) < 0) from by norm_num, show ((-3599 : ℚ) < 1) from by norm_num,
      show ((-3598 : ℚ) < 0) from by norm_num, show ((-3598 : ℚ) < 1) from by norm_num]
  · intro st identifier o lims b now h hw
    rw [is_rate_limited_fst] at h
    rw [is_rate_limited_info] at hw
    rw [is_rate_limited_store_limited st identifier o lims b now h]
    exact checkLoop_deny_minute_frame identifier now b lims st h hw

/-- Witness for C4's frame conjunct: a store holding one minute marker denies
at time 0 under minute-limit 1, and the hour and day keys are untouched. -/
theorem c4_minute_first_authoritative_witness :
    (is_rate_limited (Store.empty.setZ (getKey "client" "minute") [((0, 0), 0)])
        "client" 0 ⟨1, 0, 0⟩ 0 0).2.2.sets (getKey "client" "hour")
      = (Store.empty.setZ (getKey "client" "minute") [((0, 0), 0)]).sets (getKey "client" "hour")
    ∧ (is_rate_limited (Store.empty.setZ (getKey "client" "minute") [((0, 0), 0)])
        "client" 0 ⟨1, 0, 0⟩ 0 0).2.2.sets (getKey "client" "day")
      = (Store.empty.setZ (getKey "client" "minute") [((0, 0), 0)]).sets
          (getKey "client" "day") := by
  have h := c4_minute_first_authoritative.2
    (Store.empty.setZ (getKey "client" "minute") [((0, 0), 0)]) "client" 0 ⟨1, 0, 0⟩ 0 0
  have he : is_rate_limited (Store.empty.setZ (getKey "client" "minute") [((0, 0), 0)])
      "client" 0 ⟨1, 0, 0⟩ 0 0
      = (true, denyInfo "minute" 60 1 0 0,
         (Store.empty.setZ (getKey "client" "minute") [((0, 0), 0)]).setZ
           (getKey "client" "minute") [((0, 0), 0)]) := by
    rw [show (⟨1, 0, 0⟩ : Limits) = singleLimits 0 1 from rfl,
      single_step 0 1 0 (by norm_num) le_rfl]
    rw [show singleZ (Store.empty.setZ (getKey "client" "minute") [((0, 0), 0)]) "client" 0 0
        = [((0, 0), 0)] from by
      simp [singleZ, winName, winDur, Store.setZ, Store.empty, zremrangebyscore,
        List.filter_cons, show ((0 : ℚ) - 60) = -60 from by norm_num,
        show ((-60 : ℚ) < 0) from by norm_num]]
    rw [if_pos (by norm_num)]
    simp [winName, winDur, minScore]
  exact h (by rw [he]) (by rw [he]; rfl)

/-- Claim C10: a denied evaluation consumes no quota.  When `is_rate_limited`
returns limited, no marker is added to any key and no expiry is refreshed; the
only mutation is the trim of expired markers in the identifier's own window
keys (each window key is either untouched or exactly trimmed at its cutoff,
windows after the violated one being untouched); every other key is
unchanged. -/
theorem c10_denied_consumes_no_quota (st : Store) (identifier : String) (o : ℕ)
    (lims : Limits) (b : ℤ) (now : ℚ)
    (h : (is_rate_limited st identifier o lims b now).1 = true) :
    ((is_rate_limited st identifier o lims b now).2.2.ttl = st.ttl)
    ∧ (∀ (k : String) (e : Member × ℚ),
        e ∈ (is_rate_limited st identifier o lims b now).2.2.sets k → e ∈ st.sets k)
    ∧ (∀ k : String, k ≠ getKey identifier "minute" → k ≠ getKey identifier "hour" →
        k ≠ getKey identifier "day" →
        (is_rate_limited st identifier o lims b now).2.2.sets k = st.sets k)
    ∧ (∀ w ∈ ["minute", "hour", "day"],
        (is_rate_limited st identifier o lims b now).2.2.sets (getKey identifier w)
            = st.sets (getKey identifier w)
        ∨ (is_rate_limited st identifier o lims b now).2.2.sets (getKey identifier w)
            = zremrangebyscore (st.sets (getKey identifier w)) (now - durOf w))
    ∧ ((is_rate_limited st identifier o lims b now).2.1.window = "minute" →
        (is_rate_limited st identifier o lims b now).2.2.sets (getKey identifier "hour")
            = st.sets (getKey identifier "hour")
        ∧ (is_rate_limited st identifier o lims b now).2.2.sets (getKey identifier "day")
            = st.sets (getKey identifier "day"))
    ∧ ((is_rate_limited st identifier o lims b now).2.1.window = "hour" →
        (is_rate_limited st identifier o lims b now).2.2.sets (getKey identifier "day")
            = st.sets (getKey identifier "day")) := by
  rw [is_rate_limited_fst] at h
  rw [is_rate_limited_store_limited st identifier o lims b now h, is_rate_limited_info]
  have hnd : ((windowsOf lims).map (fun en => getKey identifier en.1)).Nodup := by
    rw [show (windowsOf lims).map (fun en => getKey identifier en.1)
        = [getKey identifier "minute", getKey identifier "hour", getKey identifier "day"]
        from rfl]
    refine List.nodup_cons.mpr ⟨?_, List.nodup_cons.mpr ⟨?_, List.nodup_singleton _⟩⟩
    · intro hc
      rcases List.mem_cons.mp hc with hc | hc
      · exact key_minute_ne_hour identifier hc
      · rw [List.mem_singleton] at hc
        exact key_minute_ne_day identifier hc
    · intro hc
      rw [List.mem_singleton] at hc
      exact key_hour_ne_day identifier hc
  refine ⟨checkLoop_ttl identifier now b _ st initInfo,
    fun k e he => checkLoop_sets_subset identifier now b _ st initInfo k e he,
    ?_, ?_, ?_, ?_⟩
  · intro k hkm hkh hkd
    apply checkLoop_sets_frame identifier now b _ st initInfo k
    intro en hen _
    rcases mem_windowsOf hen with rfl | rfl | rfl
    · exact fun hc => hkm hc.symm
    · exact fun hc => hkh hc.symm
    · exact fun hc => hkd hc.symm
  · intro w hmem
    rcases checkLoop_sets_cases identifier now b (windowsOf lims) st initInfo
        (getKey identifier w) hnd with hc | ⟨en, hen, _, hk, hz⟩
    · exact Or.inl hc
    · right
      have hwm : w = "minute" ∨ w = "hour" ∨ w = "day" := by simpa using hmem
      have hname : en.1 = w := by
        rcases mem_windowsOf hen with rfl | rfl | rfl <;> rcases hwm with rfl | rfl | rfl
        · rfl
        · exact absurd hk.symm (key_minute_ne_hour identifier)
        · exact absurd hk.symm (key_minute_ne_day identifier)
        · exact absurd hk (key_minute_ne_hour identifier)
        · rfl
        · exact absurd hk.symm (key_hour_ne_day identifier)
        · exact absurd hk (key_minute_ne_day identifier)
        · exact absurd hk (key_hour_ne_day identifier)
        · rfl
      have hdur : en.2.1 = durOf w := by
        rcases mem_windowsOf hen with rfl | rfl | rfl <;> rw [← hname] <;> rfl
      rw [← hdur]
      exact hz
  · intro hw
    exact checkLoop_deny_minute_frame identifier now b lims st h hw
  · intro hw
    exact checkLoop_deny_hour_frame identifier now b lims st h hw

/-- Witness for C10: the denied evaluation above leaves the expiry map
unchanged and adds no marker. -/
theorem c10_denied_consumes_no_quota_witness :
    ((is_rate_limited (Store.empty.setZ (getKey "client" "minute") [((0, 0), 0)])
        "client" 7 ⟨1, 0, 0⟩ 0 0).2.2.ttl
      = (Store.empty.setZ (getKey "client" "minute") [((0, 0), 0)]).ttl)
    ∧ ((is_rate_limited (Store.empty.setZ (getKey "client" "minute") [((0, 0), 0)])
        "client" 7 ⟨1, 0, 0⟩ 0 0).2.2.sets "unrelated-key"
      = (Store.empty.setZ (getKey "client" "minute") [((0, 0), 0)]).sets "unrelated-key") := by
  have hlim : (is_rate_limited (Store.empty.setZ (getKey "client" "minute") [((0, 0), 0)])
      "client" 7 ⟨1, 0, 0⟩ 0 0).1 = true := by
    rw [show (⟨1, 0, 0⟩ : Limits) = singleLimits 0 1 from rfl,
      single_step 0 1 0 (by norm_num) le_rfl]
    rw [show singleZ (Store.empty.setZ (getKey "client" "minute") [((0, 0), 0)]) "client" 0 0
        = [((0, 0), 0)] from by
      simp [singleZ, winName, winDur, Store.setZ, Store.empty, zremrangebyscore,
        List.filter_cons, show ((0 : ℚ) - 60) = -60 from by norm_num,
        show ((-60 : ℚ) < 0) from by norm_num]]
    rw [if_pos (by norm_num)]
  have h := c10_denied_consumes_no_quota
    (Store.empty.setZ (getKey "client" "minute") [((0, 0), 0)]) "client" 7 ⟨1, 0, 0⟩ 0 0 hlim
  refine ⟨h.1, h.2.2.1 "unrelated-key" ?_ ?_ ?_⟩
  · decide
  · decide
  · decide

lemma keys_nodup (identifier : String) (lims : Limits) :
    ((windowsOf lims).map (fun en => getKey identifier en.1)).Nodup := by
  rw [show (windowsOf lims).map (fun en => getKey identifier en.1)
      = [getKey identifier "minute", getKey identifier "hour", getKey identifier "day"]
      from rfl]
  refine List.nodup_cons.mpr ⟨?_, List.nodup_cons.mpr ⟨?_, List.nodup_singleton _⟩⟩
  · intro hc
    rcases List.mem_cons.mp hc with hc | hc
    · exact key_minute_ne_hour identifier hc
    · rw [List.mem_singleton] at hc
      exact key_minute_ne_day identifier hc
  · intro hc
    rw [List.mem_singleton] at hc
    exact key_hour_ne_day identifier hc

/-- Claim C7: whenever `is_rate_limited` denies, the reported `retry_after`
is at least 1 (unconditionally); and if every marker stored for the
identifier has a timestamp at most the current time, `retry_after` is at most
the duration of the violated window (the trim preceding the count removed
everything older than `now - duration`). -/
theorem c7_retry_after_bounds (st : Store) (identifier : String) (o : ℕ) (lims : Limits)
    (b : ℤ) (now : ℚ)
    (h : (is_rate_limited st identifier o lims b now).1 = true) :
    1 ≤ (is_rate_limited st identifier o lims b now).2.1.retry_after
    ∧ ((∀ w ∈ ["minute", "hour", "day"], ∀ e ∈ st.sets (getKey identifier w), e.2 ≤ now) →
        (((is_rate_limited st identifier o lims b now).2.1.retry_after : ℚ)
          ≤ durOf (is_rate_limited st identifier o lims b now).2.1.window)) := by
  rw [is_rate_limited_fst] at h
  rw [is_rate_limited_info]
  obtain ⟨en, hen, _, m, hm, hinfo⟩ := checkLoop_limited_info identifier now b
    (windowsOf lims) st initInfo (keys_nodup identifier lims) h
  rw [hinfo]
  constructor
  · simp only [denyInfo]
    exact le_max_left 1 _
  · intro hball
    obtain ⟨⟨e, he, hesc⟩, _⟩ := minScore_spec hm
    have hein : e ∈ st.sets (getKey identifier en.1) := zrem_subset he
    have hwmem : en.1 ∈ ["minute", "hour", "day"] := by
      rcases mem_windowsOf hen with rfl | rfl | rfl <;> simp
    have hmnow : m ≤ now := hesc ▸ hball en.1 hwmem e hein
    simp only [denyInfo]
    rcases mem_windowsOf hen with rfl | rfl | rfl
    · have hple : pyInt (m + 60 - now) ≤ (60 : ℤ) := pyInt_le (by push_cast; linarith)
      have hmax : max 1 (pyInt (m + 60 - now)) ≤ (60 : ℤ) := max_le (by norm_num) hple
      rw [show durOf "minute" = 60 from rfl]
      exact_mod_cast hmax
    · have hple : pyInt (m + 3600 - now) ≤ (3600 : ℤ) := pyInt_le (by push_cast; linarith)
      have hmax : max 1 (pyInt (m + 3600 - now)) ≤ (3600 : ℤ) := max_le (by norm_num) hple
      rw [show durOf "hour" = 3600 from rfl]
      exact_mod_cast hmax
    · have hple : pyInt (m + 86400 - now) ≤ (86400 : ℤ) := pyInt_le (by push_cast; linarith)
      have hmax : max 1 (pyInt (m + 86400 - now)) ≤ (86400 : ℤ) := max_le (by norm_num) hple
      rw [show durOf "day" = 86400 from rfl]
      exact_mod_cast hmax

/-- Witness for C7: the minute-window denial at time 0 with one marker at 0
reports retry_after 60, within [1, 60]. -/
theorem c7_retry_after_bounds_witness :
    1 ≤ (is_rate_limited (Store.empty.setZ (getKey "client" "minute") [((0, 0), 0)])
        "client" 3 ⟨1, 0, 0⟩ 0 0).2.1.retry_after
    ∧ (((is_rate_limited (Store.empty.setZ (getKey "client" "minute") [((0, 0), 0)])
        "client" 3 ⟨1, 0, 0⟩ 0 0).2.1.retry_after : ℚ)
        ≤ durOf (is_rate_limited (Store.empty.setZ (getKey "client" "minute") [((0, 0), 0)])
            "client" 3 ⟨1, 0, 0⟩ 0 0).2.1.window) := by
  have hlim : (is_rate_limited (Store.empty.setZ (getKey "client" "minute") [((0, 0), 0)])
      "client" 3 ⟨1, 0, 0⟩ 0 0).1 = true := by
    rw [show (⟨1, 0, 0⟩ : Limits) = singleLimits 0 1 from rfl,
      single_step 0 1 0 (by norm_num) le_rfl]
    rw [show singleZ (Store.empty.setZ (getKey "client" "minute") [((0, 0), 0)]) "client" 0 0
        = [((0, 0), 0)] from by
      simp [singleZ, winName, winDur, Store.setZ, Store.empty, zremrangebyscore,
        List.filter_cons, show ((0 : ℚ) - 60) = -60 from by norm_num,
        show ((-60 : ℚ) < 0) from by norm_num]]
    rw [if_pos (by norm_num)]
  have h := c7_retry_after_bounds (Store.empty.setZ (getKey "client" "minute") [((0, 0), 0)])
    "client" 3 ⟨1, 0, 0⟩ 0 0 hlim
  refine ⟨h.1, h.2 ?_⟩
  intro w hw e he
  rcases (show w = "minute" ∨ w = "hour" ∨ w = "day" by simpa using hw) with rfl | rfl | rfl
  · rcases (show e = ((0, 0), 0) by
      simpa [Store.setZ, Store.empty] using he) with rfl
    norm_num
  · simp [Store.setZ, Store.empty,
      show getKey "client" "hour" ≠ getKey "client" "minute"
        from fun hc => key_minute_ne_hour "client" hc.symm] at he
  · simp [Store.setZ, Store.empty,
      show getKey "client" "day" ≠ getKey "client" "minute"
        from fun hc => key_minute_ne_day "client" hc.symm] at he

/-- Counterexample to claim C6: with `{per_minute := 0, per_hour := 5}` and no
prior traffic, an admitted request leaves the Decision Result's header fields
at their zero initialisers — they are NOT taken from the hour window (the
limit field is 0, not 5). -/
theorem c6_counterexample :
    (is_rate_limited Store.empty "client" 0 ⟨0, 5, 0⟩ 0 0).1 = false
    ∧ (is_rate_limited Store.empty "client" 0 ⟨0, 5, 0⟩ 0 0).2.1 = initInfo
    ∧ (is_rate_limited Store.empty "client" 0 ⟨0, 5, 0⟩ 0 0).2.1.limit ≠ 5
    ∧ (is_rate_limited Store.empty "client" 0 ⟨0, 5, 0⟩ 0 0).2.1.reset ≠ pyInt (0 + 3600) := by
  have hstep := single_step 1 5 0 (by norm_num) le_rfl Store.empty "client" 0 0
  rw [show singleZ Store.empty "client" 1 0 = [] from rfl] at hstep
  rw [if_neg (by simp)] at hstep
  have hupd : updateHeader (winName 1) (winDur 1) 5 (List.length ([] : ZSet)) 0 initInfo
      = initInfo := by
    rw [updateHeader]
    exact if_neg (by decide)
  rw [hupd] at hstep
  rw [show (⟨0, 5, 0⟩ : Limits) = singleLimits 1 5 from rfl, hstep]
  refine ⟨rfl, rfl, by decide, ?_⟩
  rw [show pyInt ((0 : ℚ) + 3600) = 3600 from by norm_num [pyInt]]
  decide

/-- Claim C6 (amended): on an admitted request the Decision Result's limit,
remaining and reset fields are taken from the minute window when a minute
limit is configured (remaining counts the markers present before this request
is recorded); when no minute limit is configured the fields keep their zero
initialisers regardless of the other windows. -/
theorem c6_headers_minute_or_zero :
    (∀ (st : Store) (identifier : String) (o : ℕ) (lims : Limits) (b : ℤ) (now : ℚ),
      lims.per_minute ≠ 0 →
      (is_rate_limited st identifier o lims b now).1 = false →
      (is_rate_limited st identifier o lims b now).2.1.limit = lims.per_minute
      ∧ (is_rate_limited st identifier o lims b now).2.1.remaining
          = max 0 (lims.per_minute - (zremrangebyscore
              (st.sets (getKey identifier "minute")) (now - 60)).length)
      ∧ (is_rate_limited st identifier o lims b now).2.1.reset = pyInt (now + 60)
      ∧ (is_rate_limited st identifier o lims b now).2.1.window = "")
    ∧ (∀ (st : Store) (identifier : String) (o : ℕ) (lims : Limits) (b : ℤ) (now : ℚ),
      lims.per_minute = 0 →
      (is_rate_limited st identifier o lims b now).1 = false →
      (is_rate_limited st identifier o lims b now).2.1 = initInfo) := by
  have htail : ∀ (lims : Limits), ∀ en ∈ [("hour", (3600 : ℚ), lims.per_hour),
      ("day", (86400 : ℚ), lims.per_day)], en.1 ≠ "minute" := by
    intro lims en hen
    rcases List.mem_cons.mp hen with rfl | hen
    · exact by simp
    · rw [List.mem_singleton] at hen
      subst hen
      exact by simp
  constructor
  · intro st identifier o lims b now hpm h
    rw [is_rate_limited_fst] at h
    rw [is_rate_limited_info]
    have hwin : windowsOf lims = ("minute", (60 : ℚ), lims.per_minute) ::
        [("hour", (3600 : ℚ), lims.per_hour), ("day", (86400 : ℚ), lims.per_day)] := rfl
    set z := zremrangebyscore (st.sets (getKey identifier "minute")) (now - 60) with hz
    by_cases hge : lims.per_minute + b ≤ (z.length : ℤ)
    · rcases hms : minScore z with _ | m
      · have hzn : z = [] := minScore_eq_none hms
        rw [hwin, checkLoop_cons_emptyz _ _ _ _ _ _ _ _ _ hpm (by rw [← hz, hzn])] at h ⊢
        rw [checkLoop_info_of_not_limited identifier now b _ _ _ (htail lims) h]
        rw [hzn]
        refine ⟨by simp [updateHeader, initInfo], by simp [updateHeader, initInfo], ?_, ?_⟩
        · simp [updateHeader, initInfo]
        · simp [updateHeader, initInfo]
      · exfalso
        rw [hwin, checkLoop_cons_deny _ _ _ _ _ _ _ _ _ m hpm (by rw [← hz]; exact hge)
          (by rw [← hz]; exact hms)] at h
        simp at h
    · push_neg at hge
      rw [hwin, checkLoop_cons_pass _ _ _ _ _ _ _ _ _ hpm (by rw [← hz]; exact hge)] at h ⊢
      rw [checkLoop_info_of_not_limited identifier now b _ _ _ (htail lims) h]
      refine ⟨by simp [updateHeader, initInfo], by simp [updateHeader, initInfo], ?_, ?_⟩
      · simp [updateHeader, initInfo]
      · simp [updateHeader, initInfo]
  · intro st identifier o lims b now hpm h
    rw [is_rate_limited_fst] at h
    rw [is_rate_limited_info]
    have hwin : windowsOf lims = ("minute", (60 : ℚ), lims.per_minute) ::
        [("hour", (3600 : ℚ), lims.per_hour), ("day", (86400 : ℚ), lims.per_day)] := rfl
    rw [hwin, hpm, checkLoop_cons_zero] at h ⊢
    exact checkLoop_info_of_not_limited identifier now b _ _ _ (htail lims) h

/-- Witness for C6 (amended): with minute-limit 3 on an empty store at time 0
the admitted request reports limit 3, remaining 3, reset 60, empty window
tag. -/
theorem c6_headers_minute_or_zero_witness :
    (is_rate_limited Store.empty "client" 0 ⟨3, 0, 0⟩ 0 0).2.1.limit = 3
    ∧ (is_rate_limited Store.empty "client" 0 ⟨3, 0, 0⟩ 0 0).2.1.remaining = 3
    ∧ (is_rate_limited Store.empty "client" 0 ⟨3, 0, 0⟩ 0 0).2.1.reset = 60
    ∧ (is_rate_limited Store.empty "client" 0 ⟨3, 0, 0⟩ 0 0).2.1.window = "" := by
  have hadm : (is_rate_limited Store.empty "client" 0 ⟨3, 0, 0⟩ 0 0).1 = false := by
    rw [show (⟨3, 0, 0⟩ : Limits) = singleLimits 0 3 from rfl,
      single_step 0 3 0 (by norm_num) le_rfl]
    rw [show singleZ Store.empty "client" 0 0 = [] from rfl]
    rw [if_neg (by simp)]
  have h := c6_headers_minute_or_zero.1 Store.empty "client" 0 ⟨3, 0, 0⟩ 0 0 (by decide) hadm
  refine ⟨h.1, ?_, ?_, h.2.2.2⟩
  · rw [h.2.1]
    simp [Store.empty, zremrangebyscore]
  · rw [h.2.2.1]
    norm_num [pyInt]

/-- Counterexample to claim C3: with limits `{per_minute := 3}`, burst 0 and
no prior traffic, three sequential calls at t = 0 report remaining
3, 2, 1 — not 2, 1, 0: `remaining = limit - count` is computed from the count
before the current request is recorded. -/
theorem c3_counterexample :
    (runCalls "client" ⟨3, 0, 0⟩ 0 [(0, 1), (0, 2), (0, 3)] Store.empty).2.map
        (fun r => r.2.remaining) = [3, 2, 1]
    ∧ (runCalls "client" ⟨3, 0, 0⟩ 0 [(0, 1), (0, 2), (0, 3)] Store.empty).2.map
        (fun r => r.2.remaining) ≠ [2, 1, 0] := by
  have hmap : (runCalls "client" ⟨3, 0, 0⟩ 0 [(0, 1), (0, 2), (0, 3)] Store.empty).2.map
      (fun r => r.2.remaining) = [3, 2, 1] := by
    simp [runCalls, show (⟨3, 0, 0⟩ : Limits) = singleLimits 0 3 from rfl,
      single_step 0 3 0 (by norm_num) le_rfl, singleZ, winName, winDur,
      updateHeader, denyInfo, initInfo, zadd, zremrangebyscore, zcard, minScore,
      Store.setZ, Store.setTtl, Store.empty, List.filter_cons, List.any_cons,
      show getKey "client" "minute" = "ratelimit:client:minute" from rfl,
      show ((0 : ℚ) - 60) = -60 from by norm_num,
      show ((-60 : ℚ) < 0) from by norm_num,
      show max (0 : ℤ) 3 = 3 from by norm_num,
      show max (0 : ℤ) 2 = 2 from by norm_num,
      show max (0 : ℤ) 1 = 1 from by norm_num]
  exact ⟨hmap, by rw [hmap]; decide⟩

/-- Claim C3 (amended): limits `{per_minute := 3}`, burst 0, no prior
traffic: the three calls at t = 0 are admitted with remaining 3, 2, 1 (the
count before recording the request); the fourth call at t = 0 is denied with
retry_after exactly 60; a call at t = 61 is admitted (with remaining 3
again, the t = 0 markers having been trimmed). -/
theorem c3_scenario_amended :
    (runCalls "client" ⟨3, 0, 0⟩ 0 [(0, 1), (0, 2), (0, 3), (0, 4), (61, 5)]
        Store.empty).2.map (fun r => (r.1, r.2.remaining, r.2.retry_after))
      = [(false, 3, 0), (false, 2, 0), (false, 1, 0), (true, 0, 60), (false, 3, 0)] := by
  simp [runCalls, show (⟨3, 0, 0⟩ : Limits) = singleLimits 0 3 from rfl,
    single_step 0 3 0 (by norm_num) le_rfl, singleZ, winName, winDur,
    updateHeader, denyInfo, initInfo, zadd, zremrangebyscore, zcard, minScore,
    Store.setZ, Store.setTtl, Store.empty, List.filter_cons, List.any_cons,
    show getKey "client" "minute" = "ratelimit:client:minute" from rfl,
    show ((0 : ℚ) - 60) = -60 from by norm_num,
    show ((61 : ℚ) - 60) = 1 from by norm_num,
    show ((-60 : ℚ) < 0) from by norm_num,
    show ¬ ((1 : ℚ) < 0) from by norm_num,
    show ((0 : ℚ) + 60 - 0) = 60 from by norm_num,
    show pyInt (60 : ℚ) = 60 from by norm_num [pyInt],
    show max (1 : ℤ) 60 = 60 from by norm_num,
    show max (0 : ℤ) 3 = 3 from by norm_num,
    show max (0 : ℤ) 2 = 2 from by norm_num,
    show max (0 : ℤ) 1 = 1 from by norm_num]

lemma except_error_bind {α β : Type} (e : String) (f : α → Except String β) :
    ((Except.error e : Except String α) >>= f) = .error e := rfl

/-- Counterexample to claim C1: with the counter store unreachable, an
ordinary evaluation neither admits nor denies — the store exception escapes
`is_rate_limited` and the middleware dispatch as an error. -/
theorem c1_counterexample :
    is_rate_limitedE ⟨false, Store.empty⟩ "ip:203.0.113.9" 0 ⟨3, 100, 1000⟩ 10 0
        = .error storeFailure
    ∧ dispatch true "/api/v1/scan" "ip:203.0.113.9" 0 ⟨3, 100, 1000⟩ 10 0
        ⟨false, Store.empty⟩ (.ok ⟨200, [], "ok"⟩) = .error storeFailure := by
  have h1 : is_rate_limitedE ⟨false, Store.empty⟩ "ip:203.0.113.9" 0 ⟨3, 100, 1000⟩ 10 0
      = .error storeFailure :=
    is_rate_limitedE_fail Store.empty "ip:203.0.113.9" 0 ⟨3, 100, 1000⟩ 10 0
      (Or.inl (by decide))
  refine ⟨h1, ?_⟩
  rw [dispatch, if_neg (by simp), if_neg (by decide)]
  simp only [h1, Bind.bind, Except.bind]

/-- Claim C1 (amended): the limiter implements no failure policy.  Whenever at
least one window limit is configured and the store is unreachable, the store
exception propagates out of `is_rate_limited` unconverted, and out of the
middleware dispatch for any enabled, non-allow-listed request — the request
is neither admitted (fail-open) nor answered with a retryable denial
(fail-closed). -/
theorem c1_store_failure_escapes (st : Store) (identifier : String) (o : ℕ) (lims : Limits)
    (b : ℤ) (now : ℚ)
    (h : lims.per_minute ≠ 0 ∨ lims.per_hour ≠ 0 ∨ lims.per_day ≠ 0) :
    is_rate_limitedE ⟨false, st⟩ identifier o lims b now = .error storeFailure
    ∧ ∀ (path : String) (cn : Except String HttpResponse), path ∉ allowListPaths →
        dispatch true path identifier o lims b now ⟨false, st⟩ cn = .error storeFailure := by
  refine ⟨is_rate_limitedE_fail st identifier o lims b now h, ?_⟩
  intro path cn hpath
  rw [dispatch, if_neg (by simp), if_neg hpath]
  simp only [is_rate_limitedE_fail st identifier o lims b now h, Bind.bind, Except.bind]

/-- Witness for C1 (amended): concrete unreachable-store evaluation. -/
theorem c1_store_failure_escapes_witness :
    is_rate_limitedE ⟨false, Store.empty⟩ "user:7" 0 ⟨0, 0, 1000⟩ 0 0 = .error storeFailure
    ∧ dispatch true "/scan" "user:7" 0 ⟨0, 0, 1000⟩ 0 0 ⟨false, Store.empty⟩
        (.error "downstream_exception") = .error storeFailure := by
  have h := c1_store_failure_escapes Store.empty "user:7" 0 ⟨0, 0, 1000⟩ 0 0
    (Or.inr (Or.inr (by decide)))
  exact ⟨h.1, h.2 "/scan" (.error "downstream_exception") (by decide)⟩

/-- Counterexample to claim C9: on an admitted request whose downstream
handler raises, the middleware has no try/finally — the exception propagates
and no response (hence no `X-RateLimit-*` header) is produced. -/
theorem c9_counterexample :
    dispatch true "/api/v1/scan" "client" 0 ⟨3, 0, 0⟩ 0 0 ⟨true, Store.empty⟩
      (.error "downstream_exception") = .error "downstream_exception" := by
  rw [dispatch, if_neg (by simp), if_neg (by decide)]
  rw [is_rate_limitedE_ok]
  have hadm : (is_rate_limited Store.empty "client" 0 ⟨3, 0, 0⟩ 0 0).1 = false := by
    rw [show (⟨3, 0, 0⟩ : Limits) = singleLimits 0 3 from rfl,
      single_step 0 3 0 (by norm_num) le_rfl]
    rw [show singleZ Store.empty "client" 0 0 = [] from rfl]
    rw [if_neg (by simp)]
  simp only [Bind.bind, Except.bind, hadm]
  rfl

/-- Claim C9 (amended): for every admitted, enabled, non-allow-listed request
whose downstream handler returns a response (of any status), the middleware
attaches the three `X-RateLimit-*` headers computed at admission time to that
response; when the downstream handler raises instead, the exception
propagates and no headers are attached. -/
theorem c9_headers_on_returned_response (path identifier : String) (o : ℕ) (lims : Limits)
    (b : ℤ) (now : ℚ) (rs : RStore) (info : LimitInfo) (rs1 : RStore) (resp : HttpResponse)
    (hpath : path ∉ allowListPaths)
    (hok : is_rate_limitedE rs identifier o lims b now = .ok (false, info, rs1)) :
    dispatch true path identifier o lims b now rs (.ok resp)
        = .ok ({ resp with headers := ((rlHeaders info).foldl
            (fun acc p => setHeader acc p.1 p.2) resp.headers) }, rs1)
    ∧ headerGet ((rlHeaders info).foldl (fun acc p => setHeader acc p.1 p.2) resp.headers)
        "X-RateLimit-Limit" = some (toString info.limit)
    ∧ headerGet ((rlHeaders info).foldl (fun acc p => setHeader acc p.1 p.2) resp.headers)
        "X-RateLimit-Remaining" = some (toString info.remaining)
    ∧ headerGet ((rlHeaders info).foldl (fun acc p => setHeader acc p.1 p.2) resp.headers)
        "X-RateLimit-Reset" = some (toString info.reset)
    ∧ ∀ e : String, dispatch true path identifier o lims b now rs (.error e) = .error e := by
  have hfold : (rlHeaders info).foldl (fun acc p => setHeader acc p.1 p.2) resp.headers
      = setHeader (setHeader (setHeader resp.headers
          "X-RateLimit-Limit" (toString info.limit))
          "X-RateLimit-Remaining" (toString info.remaining))
          "X-RateLimit-Reset" (toString info.reset) := rfl
  refine ⟨?_, ?_, ?_, ?_, ?_⟩
  · rw [dispatch, if_neg (by simp), if_neg hpath]
    simp only [hok, Bind.bind, Except.bind]
    rfl
  · rw [hfold, headerGet_setHeader_ne _ _ _ (by decide),
      headerGet_setHeader_ne _ _ _ (by decide), headerGet_setHeader_self]
  · rw [hfold, headerGet_setHeader_ne _ _ _ (by decide), headerGet_setHeader_self]
  · rw [hfold, headerGet_setHeader_self]
  · intro e
    rw [dispatch, if_neg (by simp), if_neg hpath]
    simp only [hok, Bind.bind, Except.bind]
    rfl

/-- Witness for C9 (amended): a concrete admitted request (all limits zero,
so the record loop is a no-op and the resulting store is unchanged) gets the
three headers attached; a raising downstream propagates. -/
theorem c9_headers_on_returned_response_witness :
    dispatch true "/api/v1/scan" "client" 0 ⟨0, 0, 0⟩ 0 0 ⟨true, Store.empty⟩
        (.ok ⟨200, [], "ok"⟩)
      = .ok ({ status := 200, headers := ((rlHeaders initInfo).foldl
          (fun acc p => setHeader acc p.1 p.2) []), body := "ok" }, ⟨true, Store.empty⟩)
    ∧ headerGet ((rlHeaders initInfo).foldl (fun acc p => setHeader acc p.1 p.2) [])
        "X-RateLimit-Limit" = some (toString initInfo.limit)
    ∧ dispatch true "/api/v1/scan" "client" 0 ⟨0, 0, 0⟩ 0 0 ⟨true, Store.empty⟩
        (.error "downstream_exception") = .error "downstream_exception" := by
  have h := c9_headers_on_returned_response "/api/v1/scan" "client" 0 ⟨0, 0, 0⟩ 0 0
    ⟨true, Store.empty⟩ initInfo ⟨true, Store.empty⟩ ⟨200, [], "ok"⟩ (by decide) rfl
  exact ⟨h.1, h.2.1, h.2.2.2.2 "downstream_exception"⟩

end BlockScope
